import Mathlib

/-!
Verification development for the maven-repository-builder artifact engine.

The Python sources are shallowly embedded as executable Lean definitions:

* `maven_artifact.py` — `MavenArtifact`, `MavenArtifact.createFromGAV`
* `artifact_list_builder.py` — `ArtifactType`, `ArtifactSpec` (with `merge`
  and `containsMain`), `_getExtensionsAndClassifiers`, `buildList`
* `filter.py` — the five filter stages and the `Filter.filter` pipeline
* `indy_apis.py` — the response handling of `urlmap_response` and
  `paths_response`, and the cache filename fingerprints

Python dictionaries are modelled as association lists (key/value pair
lists); Python sets as lists without duplicates; functions that can raise
return `Except`; external collaborators (regular expression matchers from
`maven_repo_util`, the Atlas version sorter, the repository existence
probe, SHA-256, HTTP) are passed in as explicit function parameters.
-/

namespace MRB

/-- Helper for `pySplit`: split a character list at every occurrence of
`sep` (an accumulator holds the current chunk, reversed). -/
def splitChars (sep : Char) : List Char → List Char → List (List Char)
  | [], acc => [acc.reverse]
  | c :: rest, acc =>
    if c = sep then acc.reverse :: splitChars sep rest []
    else splitChars sep rest (c :: acc)

/-- Python `str.split(sep)` for a one-character separator (the sources only
ever split on a colon). -/
def pySplit (sep : Char) (s : String) : List String :=
  (splitChars sep s.data []).map String.mk

/-! ### Maven artifact data model (maven_artifact.py) -/

/-- `MavenArtifact` from maven_artifact.py.  Python uses both `None` and the
empty string for a missing type/classifier and only ever tests them for
truthiness, so both are modelled as `""`. -/
structure MavenArtifact where
  groupId : String
  artifactId : String
  artifactType : String
  version : String
  classifier : String
deriving DecidableEq

/-- `MavenArtifact.getGA`. -/
def MavenArtifact.getGA (a : MavenArtifact) : String :=
  a.groupId ++ ":" ++ a.artifactId

/-- `MavenArtifact.getGAV`. -/
def MavenArtifact.getGAV (a : MavenArtifact) : String :=
  a.groupId ++ ":" ++ a.artifactId ++ ":" ++ a.version

/-- `MavenArtifact.getGATCV`: empty type/classifier segments are omitted. -/
def MavenArtifact.getGATCV (a : MavenArtifact) : String :=
  a.groupId ++ ":" ++ a.artifactId
    ++ (if a.artifactType ≠ "" then ":" ++ a.artifactType else "")
    ++ (if a.classifier ≠ "" then ":" ++ a.classifier else "")
    ++ ":" ++ a.version

/-- The known dependency scopes recognized by `createFromGAV`. -/
def scopes : List String :=
  ["compile", "test", "provided", "runtime", "system", "import"]

/-- Outcomes of `createFromGAV` other than returning an artifact:
`sysExit n` models `sys.exit(n)` (process termination) and `indexError`
models an uncaught Python `IndexError` from list indexing. -/
inductive GAVError where
  | sysExit : Nat → GAVError
  | indexError : GAVError
deriving DecidableEq

/-- Python list indexing `l[i]`, which raises `IndexError` out of range. -/
def pyIdx (l : List String) (i : Nat) : Except GAVError String :=
  match l.get? i with
  | some x => Except.ok x
  | none => Except.error GAVError.indexError

/-- `MavenArtifact.createFromGAV` from maven_artifact.py.  The module-level
`gav_cache` memoization is a pure optimization and is not modelled. -/
def MavenArtifact.createFromGAV (gav : String) : Except GAVError MavenArtifact :=
  let gavParts := pySplit ':' gav
  if gavParts.length = 3 ∨ gavParts.length = 4 ∨ gavParts.length = 5 ∨ gavParts.length = 6 then
    do
    let groupId ← pyIdx gavParts 0
    let artifactId ← pyIdx gavParts 1
    let effectiveParts :=
      if gavParts.getLastD "" ∈ scopes then gavParts.length - 1 else gavParts.length
    if effectiveParts = 3 then do
      let version ← pyIdx gavParts 2
      Except.ok ⟨groupId, artifactId, "", version, ""⟩
    else do
      let artifactType ← pyIdx gavParts 2
      if effectiveParts = 4 then do
        let version ← pyIdx gavParts 3
        Except.ok ⟨groupId, artifactId, artifactType, version, ""⟩
      else do
        let classifier ← pyIdx gavParts 3
        let version ← pyIdx gavParts 4
        Except.ok ⟨groupId, artifactId, artifactType, version, classifier⟩
  else
    Except.error (GAVError.sysExit 1)

/-! ### Artifact specification data model (artifact_list_builder.py) -/

/-- `ArtifactType` from artifact_list_builder.py: an extension with its main
flag and its set of classifiers (the Python `set` is modelled as a list). -/
structure ArtifactType where
  artType : String
  mainType : Bool
  classifiers : List String
deriving DecidableEq

/-- `ArtifactRelationship` from artifact_list_builder.py: one edge of a
provenance path.  `declaring`/`target` may be Python `None`; `rel_type` and
`extra` default to `None`. -/
structure ArtifactRelationship where
  declaring : Option MavenArtifact
  target : Option MavenArtifact
  rel_type : Option String
  extra : Option String
deriving DecidableEq

/-- A provenance path: an ordered list of relationship edges. -/
abbrev RelPath := List ArtifactRelationship

/-- `ArtifactSpec` from artifact_list_builder.py.  The `artTypes` dictionary
(extension key, `ArtifactType` value) is an association list; `paths` is the
ordered list of provenance paths. -/
structure ArtifactSpec where
  url : String
  artTypes : List (String × ArtifactType)
  paths : List RelPath
deriving DecidableEq

/-- Dictionary lookup in an association list (first match, like a Python
dict with unique keys). -/
def sLookup {κ α : Type} [DecidableEq κ] (k : κ) : List (κ × α) → Option α
  | [] => none
  | e :: tl => if e.1 = k then some e.2 else sLookup k tl

/-- `ArtifactSpec.containsMain`: true iff some artifact type is main. -/
def ArtifactSpec.containsMain (s : ArtifactSpec) : Bool :=
  s.artTypes.any (fun e => e.2.mainType)

/-- Python `dict.update`: existing keys keep their position but take the
value from `u`; keys only in `u` are appended. -/
def dictUpdate {α : Type} (d u : List (String × α)) : List (String × α) :=
  d.map (fun e => match sLookup e.1 u with
    | some v => (e.1, v)
    | none => e)
    ++ u.filter (fun e => (sLookup e.1 d).isNone)

/-- `ArtifactSpec.merge` from artifact_list_builder.py.  Python raises
`ValueError` on a URL conflict (checked first) or on any overlapping
artifact-type key; this is modelled with `Except.error`.  Note the URL check
only excuses an empty URL on the `other` side. -/
def ArtifactSpec.merge (self other : ArtifactSpec) : Except String ArtifactSpec :=
  if other.url ≠ "" ∧ self.url ≠ other.url then
    Except.error "Cannot merge artifact specs with different URLs."
  else if other.artTypes.any (fun e => (sLookup e.1 self.artTypes).isSome) then
    Except.error "Cannot merge artifact specs with overlapping types."
  else
    Except.ok { url := self.url
                artTypes := dictUpdate self.artTypes other.artTypes
                paths := self.paths ++ other.paths }

/-! ### Association list lemmas -/

theorem sLookup_some_mem {κ α : Type} [DecidableEq κ] {k : κ} {v : α} :
    ∀ {l : List (κ × α)}, sLookup k l = some v → (k, v) ∈ l := by
  intro l
  induction l with
  | nil => intro h; simp [sLookup] at h
  | cons e tl ih =>
    intro h
    by_cases he : e.1 = k
    · have hv : e.2 = v := by simpa [sLookup, he] using h
      have hke : (k, v) = e := by
        cases e with
        | mk k' v' =>
          simp only [Prod.mk.injEq]
          exact ⟨he.symm, hv.symm⟩
      rw [hke]
      exact List.mem_cons_self e tl
    · simp [sLookup, he] at h
      right
      exact ih h

theorem sLookup_isSome_of_mem {κ α : Type} [DecidableEq κ] {e : κ × α} :
    ∀ {l : List (κ × α)}, e ∈ l → (sLookup e.1 l).isSome := by
  intro l
  induction l with
  | nil => intro h; simp at h
  | cons x tl ih =>
    intro h
    by_cases hx : x.1 = e.1
    · simp [sLookup, hx]
    · simp [sLookup, hx]
      rcases List.mem_cons.mp h with h1 | h1
      · subst h1; simp at hx
      · exact ih h1

/-- First-of-two option choice (Python dict lookup falling through). -/
def optOrElse {α : Type} (x y : Option α) : Option α :=
  match x with
  | some v => some v
  | none => y

theorem sLookup_append {κ α : Type} [DecidableEq κ] (k : κ) (l₁ l₂ : List (κ × α)) :
    sLookup k (l₁ ++ l₂) = optOrElse (sLookup k l₁) (sLookup k l₂) := by
  induction l₁ with
  | nil => simp [sLookup, optOrElse]
  | cons e tl ih =>
    by_cases he : e.1 = k
    · simp [sLookup, he, optOrElse]
    · simp [sLookup, he, ih]

theorem sLookup_filter {κ α : Type} [DecidableEq κ] (k : κ) (p : κ × α → Bool)
    (l : List (κ × α)) (h : ∀ e ∈ l, e.1 = k → p e = true) :
    sLookup k (l.filter p) = sLookup k l := by
  induction l with
  | nil => simp
  | cons e tl ih =>
    by_cases hp : p e
    · rw [List.filter_cons_of_pos hp]
      by_cases he : e.1 = k
      · simp [sLookup, he]
      · simp [sLookup, he]
        exact ih (fun x hx => h x (List.mem_cons_of_mem e hx))
    · have he : e.1 ≠ k := by
        intro hk
        exact hp (h e (List.mem_cons_self e tl) hk)
      rw [List.filter_cons_of_neg hp]
      simp [sLookup, he]
      exact ih (fun x hx => h x (List.mem_cons_of_mem e hx))

theorem sLookup_map_congr {κ α : Type} {l : List (κ × α)}
    {f : κ × α → κ × α} (h : ∀ e ∈ l, f e = e) :
    l.map f = l := by
  induction l with
  | nil => simp
  | cons e tl ih =>
    simp only [List.map_cons]
    rw [h e (List.mem_cons_self e tl), ih (fun x hx => h x (List.mem_cons_of_mem e hx))]

theorem dictUpdate_lookup_disjoint {α : Type} (d u : List (String × α))
    (hdisj : ∀ k, (sLookup k d).isSome → (sLookup k u).isSome → False) (k : String) :
    sLookup k (dictUpdate d u) = optOrElse (sLookup k d) (sLookup k u) := by
  unfold dictUpdate
  have hmap : d.map (fun e => match sLookup e.1 u with
      | some v => (e.1, v)
      | none => e) = d := by
    apply sLookup_map_congr
    intro e he
    have h1 : (sLookup e.1 d).isSome := sLookup_isSome_of_mem he
    cases hu : sLookup e.1 u with
    | none => simp
    | some v =>
      exact absurd (hdisj e.1 h1 (by simp [hu])) (by simp)
  rw [hmap, sLookup_append]
  cases hd : sLookup k d with
  | some v => simp [optOrElse]
  | none =>
    simp only [optOrElse]
    apply sLookup_filter
    intro e he hk
    have h2 : (sLookup e.1 d).isNone := by
      rw [hk, hd]; rfl
    simp [h2]

/-! ### The filter pipeline (filter.py)

The aggregated artifact list is the nested dictionary
`groupId:artifactId → priority → version → ArtifactSpec`, modelled as
nested association lists.  Dictionary iteration/deletion loops become
`map`/`filter`/`filterMap`; the Python code deletes any emptied inner
dictionary immediately, which becomes a `filter` on emptiness. -/

/-- Version → spec bucket of one priority. -/
abbrev VerMap := List (String × ArtifactSpec)

/-- Priority → version bucket map of one groupId:artifactId. -/
abbrev PrioMap := List (Nat × VerMap)

/-- The whole artifact list keyed by groupId:artifactId. -/
abbrev ArtifactList := List (String × PrioMap)

/-- A compiled exclusion pattern from `maven_repo_util.getRegExpsFromStrings`
(code outside src/): the raw pattern text (the filter stages count its
colons) together with its match predicate, which is kept abstract because
the regular-expression engine is an external collaborator. -/
structure Pat where
  pattern : String
  test : String → Bool

/-- `maven_repo_util.somethingMatch`: true iff some pattern matches. -/
def somethingMatch (ps : List Pat) (s : String) : Bool :=
  ps.any (fun p => p.test s)

/-- Number of colons in a pattern string (`regExp.pattern.count(":")`). -/
def countColons (s : String) : Nat :=
  s.data.count ':'

/-- The GATCV string built by `_filterExcludedGAVs`: the classifier segment
is omitted when the classifier is empty. -/
def mkGatcv (ga t c v : String) : String :=
  if c ≠ "" then ga ++ ":" ++ t ++ ":" ++ c ++ ":" ++ v
  else ga ++ ":" ++ t ++ ":" ++ v

/-- Version-bucket part of the per-leaf filter skeleton: apply `f` to every
version leaf of one bucket and drop the leaves on `none`. -/
def filterLeavesVM (f : String → String → ArtifactSpec → Option ArtifactSpec)
    (ga : String) (vm : VerMap) : VerMap :=
  vm.filterMap (fun vs => (f ga vs.1 vs.2).map (fun s => (vs.1, s)))

/-- Priority-map part of the per-leaf filter skeleton: filter every bucket
and prune the buckets that become empty. -/
def filterLeavesPM (f : String → String → ArtifactSpec → Option ArtifactSpec)
    (ga : String) (pm : PrioMap) : PrioMap :=
  (pm.map (fun pvm => (pvm.1, filterLeavesVM f ga pvm.2))).filter
    (fun pvm => !pvm.2.isEmpty)

/-- Shared skeleton of the per-leaf filter stages (excluded GAVs, excluded
types, excluded repositories): apply `f` to every version leaf, drop leaves
on `none`, and prune every priority bucket and groupId:artifactId entry
that becomes empty (mirroring the `del` statements for empty dicts). -/
def filterLeaves (f : String → String → ArtifactSpec → Option ArtifactSpec)
    (al : ArtifactList) : ArtifactList :=
  (al.map (fun gapm => (gapm.1, filterLeavesPM f gapm.1 gapm.2))).filter
    (fun gapm => !gapm.2.isEmpty)

/-- The artTypes dictionary after the GATCV-pattern pass of
`Filter._filterExcludedGAVs`: classifiers whose GATCV matches a
GATCV-shaped pattern (`gavKeepClassifier` is false) are removed, and
artifact types left with no classifiers are removed. -/
def gavKeepClassifier (gatcvPats : List Pat) (ga t v c : String) : Bool :=
  !somethingMatch gatcvPats (mkGatcv ga t c v)

/-- One ArtifactType after the classifier removal of the GATCV pass. -/
def gavFilteredAT (gatcvPats : List Pat) (ga t v : String) (at0 : ArtifactType) : ArtifactType :=
  { at0 with classifiers := at0.classifiers.filter (gavKeepClassifier gatcvPats ga t v) }

/-- The mapped artTypes dictionary of the GATCV-pattern pass (see
the doc comment above `gavKeepClassifier`). -/
def gavFilteredTypes (gatcvPats : List Pat) (ga v : String) (s : ArtifactSpec) :
    List (String × ArtifactType) :=
  (s.artTypes.map (fun e => (e.1, gavFilteredAT gatcvPats ga e.1 v e.2))).filter
    (fun e => !e.2.classifiers.isEmpty)

/-- Per-leaf action of `Filter._filterExcludedGAVs`: a GAV-pattern match
drops the whole version; otherwise the GATCV-pattern pass runs and the
version survives only if a main type remains. -/
def excludedGavLeaf (gavPats gatcvPats : List Pat) (ga v : String)
    (s : ArtifactSpec) : Option ArtifactSpec :=
  if somethingMatch gavPats (ga ++ ":" ++ v) then none
  else
    let s' : ArtifactSpec := { s with artTypes := gavFilteredTypes gatcvPats ga v s }
    if s'.containsMain then some s' else none

/-- `Filter._filterExcludedGAVs`: the pattern list is split into GAV-shaped
patterns (at most 2 colons) and GATCV-shaped patterns (more than 2). -/
def filterExcludedGAVs (pats : List Pat) (al : ArtifactList) : ArtifactList :=
  let gatcvPats := pats.filter (fun p => decide (countColons p.pattern > 2))
  let gavPats := pats.filter (fun p => !decide (countColons p.pattern > 2))
  filterLeaves (excludedGavLeaf gavPats gatcvPats) al

/-- Per-leaf action of `Filter._filterExcludedTypes`: for extensions in the
excluded list, classifiers are dropped unless their GATCV matches the
whitelist, the type is dropped once it has no classifiers, and the version
survives only if the remaining types still contain a main one. -/
def excludedTypeLeaf (exclTypes : List String) (whitelist : List Pat)
    (ga v : String) (s : ArtifactSpec) : Option ArtifactSpec :=
  let groupId := (pySplit ':' ga).getD 0 ""
  let artifactId := (pySplit ':' ga).getD 1 ""
  let keepCls := fun (t c : String) =>
    somethingMatch whitelist (MavenArtifact.getGATCV ⟨groupId, artifactId, t, v, c⟩)
  let artTypes' := (s.artTypes.map (fun e =>
      if e.1 ∈ exclTypes then
        (e.1, { e.2 with classifiers := e.2.classifiers.filter (keepCls e.1) })
      else e)).filter
    (fun e => !(decide (e.1 ∈ exclTypes) && e.2.classifiers.isEmpty))
  let s' : ArtifactSpec := { s with artTypes := artTypes' }
  if s'.containsMain then some s' else none

/-- `Filter._filterExcludedTypes`. -/
def filterExcludedTypes (exclTypes : List String) (whitelist : List Pat)
    (al : ArtifactList) : ArtifactList :=
  filterLeaves (excludedTypeLeaf exclTypes whitelist) al

/-- Per-leaf action of `Filter._filterExcludedRepositories`: a version whose
pom exists in one of the excluded repositories (probed left to right,
stopping at the first hit) is dropped.  `gavExists` is the external
repository probe `maven_repo_util.gavExists`, taking the repository URL,
the groupId:artifactId and the version. -/
def excludedRepoLeaf (gavExists : String → String → String → Bool)
    (repos : List String) (ga v : String) (s : ArtifactSpec) : Option ArtifactSpec :=
  if repos.any (fun r => gavExists r ga v) then none else some s

/-- `Filter._filterExcludedRepositories` (the worker pool only parallelizes
the probes; the deletions it records are order-independent). -/
def filterExcludedRepositories (gavExists : String → String → String → Bool)
    (repos : List String) (al : ArtifactList) : ArtifactList :=
  filterLeaves (excludedRepoLeaf gavExists repos) al

/-- Python `del` of one version key from a bucket. -/
def vmErase (v : String) (vm : VerMap) : VerMap :=
  vm.filter (fun e => decide (e.1 ≠ v))

/-- Inner loop of `Filter._filterDuplicates` for one version `v` of the
priority currently being processed: walk the strictly-higher-priority part
of the map, collect the provenance paths of every duplicate of `v` (the
Python only calls `extend` when the duplicate has a non-empty paths list)
and delete the duplicates. -/
def takeDup (v : String) : PrioMap → List RelPath × PrioMap
  | [] => ([], [])
  | e :: rest =>
    let r := takeDup v rest
    match sLookup v e.2 with
    | some sr =>
      ((if sr.paths.isEmpty then r.1 else sr.paths ++ r.1), (e.1, vmErase v e.2) :: r.2)
    | none => (r.1, e :: r.2)

/-- Middle loop of `Filter._filterDuplicates`: process every version of the
current priority bucket in order, extending the kept entry with the
collected paths of its removed duplicates. -/
def processVM : VerMap → PrioMap → VerMap × PrioMap
  | [], rest => ([], rest)
  | e :: vmtl, rest =>
    let td := takeDup e.1 rest
    let s' : ArtifactSpec := { e.2 with paths := e.2.paths ++ td.1 }
    let pr := processVM vmtl td.2
    ((e.1, s') :: pr.1, pr.2)

/-- Outer loop of `Filter._filterDuplicates` over the priorities in
ascending order (the strictly-sorted map is consumed head first, so the
tail holds exactly the priorities strictly above the current one, matching
the `if pr <= priority: continue` guard).  `fuel` is the length of the map,
a fuel value that the length-preserving `processVM` keeps exact; the
`Nat.zero` case with a non-empty map is unreachable. -/
def dedupGo : Nat → PrioMap → PrioMap
  | _, [] => []
  | 0, _ :: _ => []
  | Nat.succ n, e :: rest =>
    let pv := processVM e.2 rest
    if pv.1.isEmpty then dedupGo n pv.2
    else (e.1, pv.1) :: dedupGo n pv.2

/-- Insertion step for priority-sorting a map (Python `sorted(keys())`). -/
def insertPrio (e : Nat × VerMap) : PrioMap → PrioMap
  | [] => [e]
  | x :: xs => if e.1 ≤ x.1 then e :: x :: xs else x :: insertPrio e xs

/-- Sort a priority map by ascending priority key. -/
def sortPrios : PrioMap → PrioMap
  | [] => []
  | x :: xs => insertPrio x (sortPrios xs)

/-- `Filter._filterDuplicates` restricted to one groupId:artifactId: the
Python iterates the priorities in ascending sorted order over the shared
dictionary; here the map itself is sorted first (key order in a dictionary
is irrelevant, all access is keyed) and consumed in that order. -/
def filterDuplicatesGA (pm : PrioMap) : PrioMap :=
  dedupGo pm.length (sortPrios pm)

/-- `Filter._filterDuplicates`: duplicate versions of a groupId:artifactId
are removed from every higher-numbered priority, their provenance paths
are transferred to the surviving lowest-priority entry, and emptied
priority buckets and groupId:artifactId entries are pruned. -/
def filterDuplicates (al : ArtifactList) : ArtifactList :=
  (al.map (fun gapm => (gapm.1, filterDuplicatesGA gapm.2))).filter
    (fun gapm => !gapm.2.isEmpty)

/-- `Filter._filterMultipleVersions`: for every groupId:artifactId not
matching the multi-version allow-list, keep only the lowest priority
bucket, and in it only the first version of the Atlas-sorted version list
(`maven_repo_util._sortVersionsWithAtlas`, passed in as `sortVersions`; a
single-element list is not sorted).  The final `del` of an emptied
groupId:artifactId entry can never fire because the lowest priority key
always survives, so the entry map keeps its key.  A groupId:artifactId
with an empty priority dictionary would make the Python raise an
IndexError on `priorities[0]`; such maps are left unchanged here and are
excluded by the well-formedness hypotheses of the theorems. -/
def filterMultipleVersionsGA (mvPats : List Pat)
    (sortVersions : List String → List String) (ga : String) (pm : PrioMap) : PrioMap :=
  if somethingMatch mvPats ga then pm
  else
    match (sortPrios pm).map Prod.fst with
    | [] => pm
    | p0 :: ptail =>
      let versions := ((sLookup p0 pm).getD []).map Prod.fst
      let versions' := if versions.length > 1 then sortVersions versions else versions
      let dropVs := versions'.drop 1
      (pm.map (fun pvm =>
          (pvm.1, if pvm.1 = p0 then pvm.2.filter (fun e => decide (e.1 ∉ dropVs)) else pvm.2))).filter
        (fun pvm => decide (pvm.1 ∉ ptail))

def filterMultipleVersions (mvPats : List Pat)
    (sortVersions : List String → List String) (al : ArtifactList) : ArtifactList :=
  al.map (fun gapm => (gapm.1, filterMultipleVersionsGA mvPats sortVersions gapm.1 gapm.2))

/-- The configuration fields read by `Filter.filter`; a Python truthiness
test on a list is emptiness. -/
structure FilterConfig where
  excludedGAVs : List Pat
  excludedTypes : List String
  gatcvWhitelist : List Pat
  singleVersion : Bool
  multiVersionGAs : List Pat
  excludedRepositories : List String

/-- `Filter.filter` from filter.py: the five stages in their fixed order,
with the excluded-GAV, excluded-type, single-version and
excluded-repository stages gated on the configuration. -/
def filterPipeline (cfg : FilterConfig) (sortVersions : List String → List String)
    (gavExists : String → String → String → Bool) (al : ArtifactList) : ArtifactList :=
  let al1 := if !cfg.excludedGAVs.isEmpty then filterExcludedGAVs cfg.excludedGAVs al else al
  let al2 := if !cfg.excludedTypes.isEmpty then
    filterExcludedTypes cfg.excludedTypes cfg.gatcvWhitelist al1 else al1
  let al3 := filterDuplicates al2
  let al4 := if cfg.singleVersion then
    filterMultipleVersions cfg.multiVersionGAs sortVersions al3 else al3
  if !cfg.excludedRepositories.isEmpty then
    filterExcludedRepositories gavExists cfg.excludedRepositories al4 else al4

/-! ### The aggregator (artifact_list_builder.py, buildList) -/

/-- Version-level insertion of `_get_artifact_list`: an already-present
version is merged via `ArtifactSpec.merge` (which can raise). -/
def vmInsert (v : String) (s : ArtifactSpec) : VerMap → Except String VerMap
  | [] => Except.ok [(v, s)]
  | e :: tl =>
    if e.1 = v then do
      let m ← e.2.merge s
      Except.ok ((e.1, m) :: tl)
    else do
      let tl' ← vmInsert v s tl
      Except.ok (e :: tl')

/-- Priority-level insertion of `_get_artifact_list` (`setdefault`). -/
def pmInsert (p : Nat) (v : String) (s : ArtifactSpec) : PrioMap → Except String PrioMap
  | [] => do
    let vm ← vmInsert v s []
    Except.ok [(p, vm)]
  | e :: tl =>
    if e.1 = p then do
      let vm' ← vmInsert v s e.2
      Except.ok ((e.1, vm') :: tl)
    else do
      let tl' ← pmInsert p v s tl
      Except.ok (e :: tl')

/-- GroupId:artifactId-level insertion of `_get_artifact_list`. -/
def alInsert (ga : String) (p : Nat) (v : String) (s : ArtifactSpec) :
    ArtifactList → Except String ArtifactList
  | [] => do
    let pm ← pmInsert p v s []
    Except.ok [(ga, pm)]
  | e :: tl =>
    if e.1 = ga then do
      let pm' ← pmInsert p v s e.2
      Except.ok ((e.1, pm') :: tl)
    else do
      let tl' ← alInsert ga p v s tl
      Except.ok (e :: tl')

/-- `ArtifactListBuilder._get_artifact_list`: fold the per-priority partial
results into the nested structure, merging specs of colliding
coordinate+version entries. -/
def getArtifactList (results : List (Nat × List (MavenArtifact × ArtifactSpec))) :
    Except String ArtifactList :=
  results.foldlM (fun al pr =>
    pr.2.foldlM (fun al as => alInsert as.1.getGA pr.1 as.1.version as.2 al) al) []

/-- `ArtifactListBuilder.buildList`, modelled over the per-source collector
outcomes in declaration order (priority `i+1` for index `i`).  The Python
rebinds `errors = Queue()` inside the submission loop, so the completion
poll and the final `errors.empty()` check observe only the queue handed to
the LAST declared source; failures of earlier collectors are put on queues
nobody ever reads, their callbacks never fire, and their priorities are
simply missing from `self.results` when `_get_artifact_list` runs.  When
the last source fails the run raises (after terminating the pools) with a
message counting the errors of that one queue. -/
def buildList (outcomes : List (Except String (List (MavenArtifact × ArtifactSpec)))) :
    Except String ArtifactList :=
  let lastErrors : List String :=
    match outcomes.getLast? with
    | some (Except.error e) => [e]
    | _ => []
  let results := outcomes.enum.filterMap (fun pe =>
    match pe.2 with
    | Except.ok arts => some (pe.1 + 1, arts)
    | Except.error _ => none)
  if !lastErrors.isEmpty then
    Except.error (toString lastErrors.length ++ " error(s) occured during reading of artifact list.")
  else
    getArtifactList results

/-! ### The classifier resolver (_getExtensionsAndClassifiers)

Filenames are modelled as character lists so that the regular expressions
built from the escaped artifactId/version (pure literals plus a fixed
suffix grammar) can be evaluated directly.  Only the non-snapshot branch of
`_getArtifactVersionREString` is modelled (for a snapshot version the
version pattern additionally accepts a timestamp substitution); the
theorems carry this as a hypothesis.  For a non-snapshot version the
captured `realVersion` always equals the nominal version, so the returned
timestamp suffix is always `None` and is omitted here. -/

/-- Characters of a filename. -/
abbrev Chars := List Char

/-- Python `version.endswith("-SNAPSHOT")`. -/
def isSnapshotVersion (version : Chars) : Bool :=
  "-SNAPSHOT".data.isSuffixOf version

/-- The checksum suffix alternatives `md5|sha1|sha256|asc`. -/
def checksumSuffixes : List Chars :=
  ["md5".data, "sha1".data, "sha256".data, "asc".data]

/-- Whether a filename ends in `.md5`, `.sha1`, `.sha256` or `.asc`. -/
def endsWithChecksum (f : Chars) : Bool :=
  checksumSuffixes.any (fun s => ('.' :: s).isSuffixOf f)

/-- The checksum regex `.+\.(md5|sha1|sha256|asc)$` applied to the rest of
the filename after `artifactId-version`: it needs at least one character,
then a dot, then a checksum suffix. -/
def isChecksumRest (r : Chars) : Bool :=
  checksumSuffixes.any (fun s => ('.' :: s).isSuffixOf r && decide (s.length + 2 ≤ r.length))

/-- Split at the last dot: `some (a, ext)` when `r = a ++ "." ++ ext` with
`ext` non-empty and dot-free (the `[^.]+$` group), `none` otherwise. -/
def lastDotSplit (r : Chars) : Option (Chars × Chars) :=
  let extRev := r.reverse.takeWhile (fun c => decide (c ≠ '.'))
  match r.reverse.drop extRev.length with
  | '.' :: restRev => if extRev.isEmpty then none else some (restRev.reverse, extRev.reverse)
  | _ => none

/-- The optional greedy classifier group `(?:-(.+))?` matched against the
part before the extension: empty means the group is skipped, `-cls` with a
non-empty `cls` captures it, anything else fails the whole match. -/
def classifierGroup (a : Chars) : Option (Option Chars) :=
  match a with
  | [] => some none
  | '-' :: cls => if cls.isEmpty then none else some (some cls)
  | _ => none

/-- `ceRegEx1`: `(?:-(.+))?\.(tar\.[^.]+)$` against the rest of the
filename; the extension is `tar.` followed by the dot-free last component. -/
def matchCe1 (r : Chars) : Option (Option Chars × Chars) :=
  match lastDotSplit r with
  | none => none
  | some (a, t) =>
    if ('.' :: "tar".data).isSuffixOf a then
      (classifierGroup (a.take (a.length - 4))).map (fun cls => (cls, "tar".data ++ '.' :: t))
    else none

/-- `ceRegEx2`: `(?:-(.+))?\.([^.]+)$` against the rest of the filename. -/
def matchCe2 (r : Chars) : Option (Option Chars × Chars) :=
  match lastDotSplit r with
  | none => none
  | some (a, ext) => (classifierGroup a).map (fun cls => (cls, ext))

/-- One filename step of `_getExtensionsAndClassifiers`: `none` when the
file is a checksum or matches neither pattern (ignored), otherwise the
captured classifier (Python `None` when the group is absent) and
extension.  All three regexes require the literal `artifactId-version`
prefix. -/
def classifyFile (artifactId version : Chars) (f : Chars) : Option (Option Chars × Chars) :=
  let pfx := artifactId ++ '-' :: version
  if f.take pfx.length = pfx then
    let r := f.drop pfx.length
    if isChecksumRest r then none
    else
      match matchCe1 r with
      | some ce => some ce
      | none => matchCe2 r
  else none

/-- `extensions.setdefault(ext, set()).add(classifier)`. -/
def extsAdd (ext cls : Chars) (exts : List (Chars × List Chars)) : List (Chars × List Chars) :=
  match exts with
  | [] => [(ext, [cls])]
  | e :: tl =>
    if e.1 = ext then (e.1, if cls ∈ e.2 then e.2 else e.2 ++ [cls]) :: tl
    else e :: extsAdd ext cls tl

/-- `_getExtensionsAndClassifiers` (extension → classifier set part): fold
the classification of every filename into the extensions dictionary; a
missing classifier group records the empty classifier. -/
def getExtensionsAndClassifiers (artifactId version : Chars) (filenames : List Chars) :
    List (Chars × List Chars) :=
  filenames.foldl (fun exts f =>
    match classifyFile artifactId version f with
    | none => exts
    | some (cls, ext) => extsAdd ext (cls.getD []) exts) []

/-! ### The Indy graph client (indy_apis.py) -/

/-- An HTTP response as seen by the client: status code and body. -/
structure HttpResponse where
  status : Nat
  body : String

/-- `IndyApi.urlmap_response`, parametrized by the HTTP POST oracle (URL and
request body to response).  The JSON request body construction is
orthogonal to the response handling and is passed in as `data`.  On any
non-200 status the method logs a warning and returns the string `"{}"`,
which `json.loads` turns into the empty mapping. -/
def urlmapResponse (post : String → String → HttpResponse) (indyUrl data : String) : String :=
  let response := post (indyUrl ++ "api/depgraph/repo/urlmap") data
  if response.status = 200 then response.body else "\x7b\x7d"

/-- `IndyApi.paths_response`: like `urlmapResponse` but posting to the
paths endpoint; when the primary endpoint answers 404 the same `data` is
re-posted to the legacy `depgraph/graph/paths` endpoint, and only then is
the 200/other decision made. -/
def pathsResponse (post : String → String → HttpResponse) (indyUrl data : String) : String :=
  let response := post (indyUrl ++ "api/depgraph/repo/paths") data
  let response2 :=
    if response.status = 404 then post (indyUrl ++ "api/depgraph/graph/paths") data
    else response
  if response2.status = 200 then response2.body else "\x7b\x7d"

/-! ### Cache filename fingerprints (indy_apis.py) -/

/-- Python `sep.join(parts)`. -/
def joinWith (sep : String) : List String → String
  | [] => ""
  | [x] => x
  | x :: y :: xs => x ++ sep ++ joinWith sep (y :: xs)

/-- The naturally-joined urlmap cache key (the first `%` interpolation of
`get_urlmap_cache_filename`).  `addclassifiers` and `mutator` are the
`%s`-rendered strings of the corresponding Python values. -/
def urlmapNaturalKey (gavs : List String) (sourceKey addclassifiers : String)
    (excludedSources excludedSubgraphs : List String) (preset mutator : String)
    (patcherIds injectedBOMs : List String) : String :=
  joinWith "_" gavs ++ "_|_" ++ sourceKey ++ "_|_" ++ addclassifiers
    ++ "_|_" ++ joinWith "_" excludedSources ++ "_|_" ++ joinWith "_" excludedSubgraphs
    ++ "_|_" ++ preset ++ "_|_" ++ mutator ++ "_|_" ++ joinWith "_" patcherIds
    ++ "_|_" ++ joinWith "_" injectedBOMs

/-- The hash-suffixed short form tried when the natural urlmap key exceeds
the threshold. -/
def urlmapShortKey (sha256hex : String → String) (gavs : List String)
    (naturalKey : String) : String :=
  joinWith "-" gavs ++ "_|_" ++ sha256hex naturalKey

/-- `IndyApi.get_urlmap_cache_filename` key component, parametrized by the
SHA-256 hex digest function `sha256hex`. -/
def urlmapCacheKey (sha256hex : String → String) (gavs : List String)
    (sourceKey addclassifiers : String) (excludedSources excludedSubgraphs : List String)
    (preset mutator : String) (patcherIds injectedBOMs : List String) : String :=
  let cacheFilename := urlmapNaturalKey gavs sourceKey addclassifiers excludedSources
    excludedSubgraphs preset mutator patcherIds injectedBOMs
  if cacheFilename.length > 243 then
    let short := urlmapShortKey sha256hex gavs cacheFilename
    if short.length > 243 then sha256hex cacheFilename else short
  else cacheFilename

/-- `IndyApi.get_urlmap_cache_filename`. -/
def urlmapCacheFilename (sha256hex : String → String) (gavs : List String)
    (sourceKey addclassifiers : String) (excludedSources excludedSubgraphs : List String)
    (preset mutator : String) (patcherIds injectedBOMs : List String) : String :=
  "cache" ++ "/urlmap_" ++ urlmapCacheKey sha256hex gavs sourceKey addclassifiers
    excludedSources excludedSubgraphs preset mutator patcherIds injectedBOMs ++ ".json"

/-- The naturally-joined paths cache key (the injected BOMs are joined with
a dash here, unlike the urlmap key). -/
def pathsNaturalKey (roots targets : List String) (sourceKey : String)
    (excludedSources excludedSubgraphs : List String) (preset mutator : String)
    (patcherIds injectedBOMs : List String) : String :=
  joinWith "_" roots ++ "_|_" ++ joinWith "_" targets
    ++ "_|_" ++ sourceKey ++ "_|_" ++ joinWith "_" excludedSources
    ++ "_|_" ++ joinWith "_" excludedSubgraphs ++ "_|_" ++ preset ++ "_|_" ++ mutator
    ++ "_|_" ++ joinWith "_" patcherIds ++ "_|_" ++ joinWith "-" injectedBOMs

/-- The hash-suffixed short form tried when the natural paths key exceeds
the threshold. -/
def pathsShortKey (sha256hex : String → String) (roots targets : List String)
    (naturalKey : String) : String :=
  joinWith "_" roots ++ "_|_" ++ joinWith "_" targets ++ "_|_" ++ sha256hex naturalKey

/-- `IndyApi.get_paths_cache_filename` key component (threshold 244). -/
def pathsCacheKey (sha256hex : String → String) (roots targets : List String)
    (sourceKey : String) (excludedSources excludedSubgraphs : List String)
    (preset mutator : String) (patcherIds injectedBOMs : List String) : String :=
  let cacheFilename := pathsNaturalKey roots targets sourceKey excludedSources
    excludedSubgraphs preset mutator patcherIds injectedBOMs
  if cacheFilename.length > 244 then
    let short := pathsShortKey sha256hex roots targets cacheFilename
    if short.length > 244 then sha256hex cacheFilename else short
  else cacheFilename

/-- Python `root.replace(":", "$")` (single characters only). -/
def replaceColons (s : String) : String :=
  String.mk (s.data.map (fun c => if c = ':' then '$' else c))

/-- The root directory accumulation loop of `get_paths_cache_filename`:
roots are joined with `_|_` while the result stays under 255 characters;
the first overflow stops the loop. -/
def buildRootDir : List String → String → String
  | [], acc => acc
  | root :: rest, acc =>
    let rootFilename := replaceColons root
    let temp := if acc ≠ "" then acc ++ "_|_" ++ rootFilename else rootFilename
    if temp.length < 255 then buildRootDir rest temp else acc

/-- The target directory accumulation loop of `get_paths_cache_filename`:
`re.sub(":.*", "", target)` keeps the part before the first colon. -/
def buildTargetDir : List String → String → String
  | [], acc => acc
  | target :: rest, acc =>
    let targetGroupid := (pySplit ':' target).headD ""
    let temp := if acc ≠ "" then acc ++ "_|_" ++ targetGroupid else targetGroupid
    if temp.length < 255 then buildTargetDir rest temp else acc

/-- `IndyApi.get_paths_cache_filename`. -/
def pathsCacheFilename (sha256hex : String → String) (roots targets : List String)
    (sourceKey : String) (excludedSources excludedSubgraphs : List String)
    (preset mutator : String) (patcherIds injectedBOMs : List String) : String :=
  "cache" ++ "/" ++ buildRootDir roots "" ++ "/" ++ buildTargetDir targets ""
    ++ "/paths_" ++ pathsCacheKey sha256hex roots targets sourceKey excludedSources
      excludedSubgraphs preset mutator patcherIds injectedBOMs ++ ".json"

/-! ### Claim C2: the ArtifactSpec merge contract -/

/-- Example spec with an empty repository URL (used against C2). -/
def cexSpecA : ArtifactSpec :=
  { url := "", artTypes := [("jar", ⟨"jar", true, [""]⟩)], paths := [] }

/-- Example spec with a non-empty repository URL (used against C2). -/
def cexSpecB : ArtifactSpec :=
  { url := "http://repo", artTypes := [("pom", ⟨"pom", false, [""]⟩)], paths := [] }

/-- C2 counterexample: the claim allows differing URLs as long as one of
them is empty, but `merge` raises whenever `other.url` is non-empty and
differs from `self.url` — an empty `self.url` does not excuse the mismatch.
Here the two specs have disjoint extension keys and `self.url = ""`, yet
the merge is an error instead of the claimed union. -/
theorem merge_empty_self_url_still_errors :
    cexSpecA.url = "" ∧
    cexSpecA.artTypes.map Prod.fst = ["jar"] ∧
    cexSpecB.artTypes.map Prod.fst = ["pom"] ∧
    (∀ m, cexSpecA.merge cexSpecB ≠ Except.ok m) := by
  refine ⟨rfl, rfl, rfl, ?_⟩
  intro m
  simp [cexSpecA, cexSpecB, ArtifactSpec.merge]

/-- C2 (amended): merging raises when the artTypes mappings share an
extension key; it raises when `other.url` is non-empty and differs from
`self.url` (the first URL being empty does not excuse the mismatch); when
`other.url` is empty or the URLs are equal and the extension keys are
disjoint, the merge succeeds with exactly the union of the mappings and the
concatenated paths. -/
theorem merge_contract (a b : ArtifactSpec) :
    ((∃ k x y, sLookup k a.artTypes = some x ∧ sLookup k b.artTypes = some y) →
      ∃ msg, a.merge b = Except.error msg) ∧
    (b.url ≠ "" → a.url ≠ b.url → ∃ msg, a.merge b = Except.error msg) ∧
    ((b.url = "" ∨ a.url = b.url) →
      (∀ k, (sLookup k a.artTypes).isSome → (sLookup k b.artTypes).isSome → False) →
      ∃ m, a.merge b = Except.ok m ∧ m.url = a.url ∧ m.paths = a.paths ++ b.paths ∧
        ∀ k, sLookup k m.artTypes =
          optOrElse (sLookup k a.artTypes) (sLookup k b.artTypes)) := by
  refine ⟨?_, ?_, ?_⟩
  · rintro ⟨k, x, y, hx, hy⟩
    unfold ArtifactSpec.merge
    by_cases hurl : b.url ≠ "" ∧ a.url ≠ b.url
    · simp [hurl]
    · have hany : b.artTypes.any (fun e => (sLookup e.1 a.artTypes).isSome) = true := by
        apply List.any_eq_true.mpr
        exact ⟨(k, y), sLookup_some_mem hy, by simp [hx]⟩
      simp [hurl, hany]
  · intro h1 h2
    unfold ArtifactSpec.merge
    simp [h1, h2]
  · intro hurl hdisj
    have hg : ¬ (b.url ≠ "" ∧ a.url ≠ b.url) := by
      rcases hurl with h | h
      · intro hc; exact hc.1 h
      · intro hc; exact hc.2 h
    have hany : b.artTypes.any (fun e => (sLookup e.1 a.artTypes).isSome) = false := by
      apply List.any_eq_false.mpr
      intro e he
      intro hsome
      exact hdisj e.1 hsome (sLookup_isSome_of_mem he)
    refine ⟨{ url := a.url, artTypes := dictUpdate a.artTypes b.artTypes,
              paths := a.paths ++ b.paths },
      ?_, rfl, rfl, ?_⟩
    · unfold ArtifactSpec.merge
      simp [hg, hany]
    · intro k
      show sLookup k (dictUpdate a.artTypes b.artTypes) = _
      exact dictUpdate_lookup_disjoint a.artTypes b.artTypes hdisj k

/-- C2 witness: the merge contract applied to a concrete compatible pair. -/
theorem merge_contract_witness :
    (("" : String) = "" ∨ ("u" : String) = "") ∧
    (∃ m, ArtifactSpec.merge ⟨"u", [("jar", ⟨"jar", true, [""]⟩)], []⟩
        ⟨"", [("pom", ⟨"pom", false, [""]⟩)], []⟩ = Except.ok m ∧
      m.url = "u" ∧ m.paths = [] ++ [] ∧
        ∀ k, sLookup k m.artTypes =
          optOrElse (sLookup k [("jar", (⟨"jar", true, [""]⟩ : ArtifactType))])
            (sLookup k [("pom", (⟨"pom", false, [""]⟩ : ArtifactType))])) := by
  have hdisj : ∀ k, (sLookup k [("jar", (⟨"jar", true, [""]⟩ : ArtifactType))]).isSome →
      (sLookup k [("pom", (⟨"pom", false, [""]⟩ : ArtifactType))]).isSome → False := by
    intro k h1 h2
    by_cases hk : k = "jar"
    · subst hk
      simp [sLookup] at h2
    · simp [sLookup] at h1
      exact hk h1.symm
  exact ⟨Or.inl rfl, (merge_contract ⟨"u", [("jar", ⟨"jar", true, [""]⟩)], []⟩
      ⟨"", [("pom", ⟨"pom", false, [""]⟩)], []⟩).2.2 (Or.inl rfl) hdisj⟩

/-! ### Claim C10: createFromGAV part-count handling -/

/-- C10: a 3-part GAV whose last part is a dependency scope crashes
`createFromGAV` with an uncaught IndexError: the scope makes
`effectiveParts = 2`, the code takes the `artifactType` branch and then
reads `gavParts[3]`, which does not exist.  The claim says every 3-to-6
part string returns a MavenArtifact. -/
theorem createFromGAV_crash_on_scope_version :
    pySplit ':' "g:a:compile" = ["g", "a", "compile"] ∧
    MavenArtifact.createFromGAV "g:a:compile" = Except.error GAVError.indexError := by
  constructor
  · decide
  · rfl

/-! ### Claim C4: aggregator failure semantics -/

/-- Example partial-result spec for the aggregator claim. -/
def cexSpec4 : ArtifactSpec :=
  { url := "http://x", artTypes := [("pom", ⟨"pom", true, [""]⟩)], paths := [] }

/-- C4: with two declared sources where the FIRST collector raises and the
second succeeds, `buildList` returns normally with a partial structure that
is missing priority 1 — the errors queue is re-created for every submitted
source, and only the last queue is ever polled or checked, so the claimed
aggregate error is never raised. -/
theorem buildList_partial_on_early_failure :
    buildList [Except.error "boom",
      Except.ok [(⟨"g", "a", "", "1.0", ""⟩, cexSpec4)]] =
      Except.ok [("g:a", [(2, [("1.0", cexSpec4)])])] := by
  rfl

/-! ### Claim C8: degraded-empty responses and the legacy fallback -/

/-- C8: the urlmap query returns the empty-mapping body `"{}"` on any
non-200 status instead of raising; a paths query whose primary endpoint
answers 404 is decided by re-posting the same request body to the legacy
endpoint; and a paths query whose attempted endpoints all answer non-200
also returns `"{}"`. -/
theorem indy_degraded_empty_and_legacy_fallback
    (post : String → String → HttpResponse) (indyUrl data : String) :
    ((post (indyUrl ++ "api/depgraph/repo/urlmap") data).status ≠ 200 →
      urlmapResponse post indyUrl data = "\x7b\x7d") ∧
    ((post (indyUrl ++ "api/depgraph/repo/paths") data).status = 404 →
      pathsResponse post indyUrl data =
        (if (post (indyUrl ++ "api/depgraph/graph/paths") data).status = 200 then
          (post (indyUrl ++ "api/depgraph/graph/paths") data).body
        else "\x7b\x7d")) ∧
    ((post (indyUrl ++ "api/depgraph/repo/paths") data).status ≠ 200 →
      (post (indyUrl ++ "api/depgraph/graph/paths") data).status ≠ 200 →
      pathsResponse post indyUrl data = "\x7b\x7d") := by
  refine ⟨?_, ?_, ?_⟩
  · intro h
    simp [urlmapResponse, h]
  · intro h
    simp [pathsResponse, h]
  · intro h1 h2
    unfold pathsResponse
    by_cases h404 : (post (indyUrl ++ "api/depgraph/repo/paths") data).status = 404
    · simp [h404, h2]
    · simp [h404, h1]

/-- Concrete HTTP oracle for the C8 witness: the primary paths endpoint
answers 404, everything else is a server error. -/
def cexPost : String → String → HttpResponse := fun url _ =>
  if url = "i/" ++ "api/depgraph/repo/paths" then ⟨404, "p"⟩
  else if url = "i/" ++ "api/depgraph/graph/paths" then ⟨500, "q"⟩
  else ⟨503, "r"⟩

/-- C8 witness: the degraded-empty behavior at a concrete oracle. -/
theorem indy_degraded_witness :
    (cexPost ("i/" ++ "api/depgraph/repo/urlmap") "d").status ≠ 200 ∧
    (cexPost ("i/" ++ "api/depgraph/repo/paths") "d").status = 404 ∧
    urlmapResponse cexPost "i/" "d" = "\x7b\x7d" ∧
    pathsResponse cexPost "i/" "d" = "\x7b\x7d" := by
  have h := indy_degraded_empty_and_legacy_fallback cexPost "i/" "d"
  refine ⟨by decide, by decide, h.1 (by decide), ?_⟩
  have h2 := h.2.2 (by decide) (by decide)
  exact h2

/-! ### Claim C9: bounded, hash-replaced cache keys -/

/-- Case analysis shared by the two cache-key functions: a key of the shape
`if natural too long then (if short too long then hash else short) else
natural` stays within the threshold and takes exactly the claimed form in
each case. -/
theorem keyCases (nkey short hash : String) (hhash : hash.length = 64)
    (thr : Nat) (h64 : 64 ≤ thr) (key : String)
    (hk : key = if nkey.length > thr then (if short.length > thr then hash else short) else nkey) :
    key.length ≤ thr ∧
    (nkey.length ≤ thr → key = nkey) ∧
    (nkey.length > thr → short.length ≤ thr → key = short) ∧
    (nkey.length > thr → short.length > thr → key = hash) := by
  subst hk
  refine ⟨?_, ?_, ?_, ?_⟩
  · by_cases h1 : nkey.length > thr
    · by_cases h2 : short.length > thr
      · rw [if_pos h1, if_pos h2]
        omega
      · rw [if_pos h1, if_neg h2]
        omega
    · rw [if_neg h1]
      omega
  · intro h
    rw [if_neg (by omega : ¬ nkey.length > thr)]
  · intro h1 h2
    rw [if_pos h1, if_neg (by omega : ¬ short.length > thr)]
  · intro h1 h2
    rw [if_pos h1, if_pos h2]

/-- C9: the key component of both cache filename functions never exceeds
its threshold (243 for urlmap, 244 for paths): the naturally-joined key is
used when short enough, is replaced by the gav-joined, hash-suffixed short
form when too long, and by the bare content hash when even the short form
is too long.  The functions are pure functions of the parameter values, so
equal values give the identical filename. -/
theorem cache_key_bounded_and_hashed (sha256hex : String → String)
    (hlen : ∀ s, (sha256hex s).length = 64)
    (gavs roots targets : List String) (sourceKey addclassifiers : String)
    (excludedSources excludedSubgraphs : List String) (preset mutator : String)
    (patcherIds injectedBOMs : List String)
    (ukey nkeyU pkey nkeyP : String)
    (hu : ukey = urlmapCacheKey sha256hex gavs sourceKey addclassifiers excludedSources
      excludedSubgraphs preset mutator patcherIds injectedBOMs)
    (hnu : nkeyU = urlmapNaturalKey gavs sourceKey addclassifiers excludedSources
      excludedSubgraphs preset mutator patcherIds injectedBOMs)
    (hp : pkey = pathsCacheKey sha256hex roots targets sourceKey excludedSources
      excludedSubgraphs preset mutator patcherIds injectedBOMs)
    (hnp : nkeyP = pathsNaturalKey roots targets sourceKey excludedSources
      excludedSubgraphs preset mutator patcherIds injectedBOMs) :
    ukey.length ≤ 243 ∧ pkey.length ≤ 244 ∧
    (nkeyU.length ≤ 243 → ukey = nkeyU) ∧
    (nkeyU.length > 243 → (urlmapShortKey sha256hex gavs nkeyU).length ≤ 243 →
      ukey = urlmapShortKey sha256hex gavs nkeyU) ∧
    (nkeyU.length > 243 → (urlmapShortKey sha256hex gavs nkeyU).length > 243 →
      ukey = sha256hex nkeyU) ∧
    (nkeyP.length ≤ 244 → pkey = nkeyP) ∧
    (nkeyP.length > 244 → (pathsShortKey sha256hex roots targets nkeyP).length ≤ 244 →
      pkey = pathsShortKey sha256hex roots targets nkeyP) ∧
    (nkeyP.length > 244 → (pathsShortKey sha256hex roots targets nkeyP).length > 244 →
      pkey = sha256hex nkeyP) := by
  have hU := keyCases nkeyU (urlmapShortKey sha256hex gavs nkeyU) (sha256hex nkeyU)
    (hlen _) 243 (by omega) ukey (by rw [hu, hnu]; rfl)
  have hP := keyCases nkeyP (pathsShortKey sha256hex roots targets nkeyP) (sha256hex nkeyP)
    (hlen _) 244 (by omega) pkey (by rw [hp, hnp]; rfl)
  exact ⟨hU.1, hP.1, hU.2.1, hU.2.2.1, hU.2.2.2, hP.2.1, hP.2.2.1, hP.2.2.2⟩

/-- A stand-in 64-character digest function for the C9 witness. -/
def cexHash : String → String := fun _ => String.mk (List.replicate 64 'a')

/-- C9 witness: the cache-key contract applied at concrete parameters. -/
theorem cache_key_witness :
    (∀ s, (cexHash s).length = 64) ∧
    (urlmapCacheKey cexHash ["g:a:1"] "k" "[]" [] [] "p" "None" [] []).length ≤ 243 ∧
    (pathsCacheKey cexHash ["g:a:1"] ["g:a"] "k" [] [] "p" "None" [] []).length ≤ 244 := by
  have hlen : ∀ s, (cexHash s).length = 64 := by
    intro s
    simp [cexHash, String.length]
  have h := cache_key_bounded_and_hashed cexHash hlen ["g:a:1"] ["g:a:1"] ["g:a"]
    "k" "[]" [] [] "p" "None" [] [] _ _ _ _ rfl rfl rfl rfl
  exact ⟨hlen, h.1, h.2.1⟩

/-! ### Claim C7: checksum exclusion in the classifier resolver -/

theorem takeWhile_all_stop {p : Char → Bool} (xs : Chars) (y : Char) (ys : Chars)
    (hxs : ∀ x ∈ xs, p x = true) (hy : p y = false) :
    (xs ++ y :: ys).takeWhile p = xs := by
  induction xs with
  | nil => simp [List.takeWhile_cons, hy]
  | cons x tl ih =>
    have hx : p x = true := hxs x (List.mem_cons_self x tl)
    simp only [List.cons_append, List.takeWhile_cons, hx, if_true]
    rw [ih (fun z hz => hxs z (List.mem_cons_of_mem x hz))]

theorem lastDotSplit_of_dotfree {r : Chars} (h : ∀ c ∈ r, c ≠ '.') :
    lastDotSplit r = none := by
  simp only [lastDotSplit]
  have ht : r.reverse.takeWhile (fun c => decide (c ≠ '.')) = r.reverse := by
    apply List.takeWhile_eq_self_iff.mpr
    intro x hx
    simp only [decide_eq_true_eq]
    exact h x (List.mem_reverse.mp hx)
  rw [ht]
  rw [List.drop_length]

theorem lastDotSplit_append {a ext : Chars} (hne : ext ≠ [])
    (hdot : ∀ c ∈ ext, c ≠ '.') :
    lastDotSplit (a ++ '.' :: ext) = some (a, ext) := by
  simp only [lastDotSplit]
  have hrev : (a ++ '.' :: ext).reverse = ext.reverse ++ '.' :: a.reverse := by
    simp
  rw [hrev]
  have ht : (ext.reverse ++ '.' :: a.reverse).takeWhile (fun c => decide (c ≠ '.')) =
      ext.reverse := by
    apply takeWhile_all_stop
    · intro x hx
      simp only [decide_eq_true_eq]
      exact hdot x (List.mem_reverse.mp hx)
    · simp
  rw [ht, List.drop_left]
  have hne' : ext.reverse.isEmpty = false := by
    simp [List.isEmpty_iff, hne]
  simp [hne']

/-- Every checksum suffix is free of dots (checked by computation). -/
theorem checksumSuffixes_dotfree : ∀ t ∈ checksumSuffixes, ∀ c ∈ t, c ≠ '.' := by
  decide

/-- Core of the amended C7: a filename ending in a checksum suffix is
ignored by `classifyFile` unless it is exactly
`artifactId-version.SUFFIX` (no character between the version and the
suffix, which the checksum regex `.+\.(md5|...)` requires). -/
theorem classifyFile_checksum_none (artifactId version f : Chars)
    (hcs : endsWithChecksum f = true)
    (hdeg : ∀ s ∈ checksumSuffixes, f ≠ artifactId ++ '-' :: version ++ '.' :: s) :
    classifyFile artifactId version f = none := by
  simp only [classifyFile]
  by_cases hpre : f.take (artifactId ++ '-' :: version).length = artifactId ++ '-' :: version
  case neg => rw [if_neg hpre]
  case pos =>
    rw [if_pos hpre]
    obtain ⟨s, hs, hsuf⟩ : ∃ s ∈ checksumSuffixes, ('.' :: s).isSuffixOf f = true := by
      simpa [endsWithChecksum, List.any_eq_true] using hcs
    have hsuf' : ('.' :: s) <:+ f := List.isSuffixOf_iff_suffix.mp hsuf
    have hf : f = (artifactId ++ '-' :: version) ++ f.drop (artifactId ++ '-' :: version).length := by
      conv_lhs => rw [← List.take_append_drop (artifactId ++ '-' :: version).length f]
      rw [hpre]
    set r := f.drop (artifactId ++ '-' :: version).length with hr
    have hrsuf : r <:+ f := ⟨artifactId ++ '-' :: version, hf.symm⟩
    by_cases hlen : s.length + 2 ≤ r.length
    · have h1 : ('.' :: s) <:+ r := by
        rw [← List.reverse_prefix] at hsuf' hrsuf ⊢
        apply List.prefix_of_prefix_length_le hsuf' hrsuf
        simp only [List.length_reverse, List.length_cons]
        omega
      have hck : isChecksumRest r = true := by
        apply List.any_eq_true.mpr
        refine ⟨s, hs, ?_⟩
        rw [Bool.and_eq_true]
        exact ⟨List.isSuffixOf_iff_suffix.mpr h1, by simp [hlen]⟩
      simp [hck]
    · have h2 : r <:+ ('.' :: s) := by
        rw [← List.reverse_prefix] at hsuf' hrsuf ⊢
        apply List.prefix_of_prefix_length_le hrsuf hsuf'
        simp only [List.length_reverse, List.length_cons]
        omega
      have hne : r ≠ '.' :: s := by
        intro he
        apply hdeg s hs
        rw [hf, he]
      have h3 : r <:+ s := by
        rcases List.suffix_cons_iff.mp h2 with he | h3
        · exact absurd he hne
        · exact h3
      have hdotfree : ∀ c ∈ r, c ≠ '.' := by
        intro c hc
        exact checksumSuffixes_dotfree s hs c (h3.subset hc)
      have hld : lastDotSplit r = none := lastDotSplit_of_dotfree hdotfree
      by_cases hchk : isChecksumRest r
      · rw [if_pos hchk]
      · rw [if_neg hchk]
        simp [matchCe1, matchCe2, hld]

theorem extsAdd_lookup_isSome {k ext cls : Chars} :
    ∀ {exts : List (Chars × List Chars)},
      (sLookup k (extsAdd ext cls exts)).isSome → k = ext ∨ (sLookup k exts).isSome := by
  intro exts
  induction exts with
  | nil =>
    intro h
    by_cases hk : k = ext
    · exact Or.inl hk
    · exfalso
      rw [extsAdd, sLookup, if_neg (fun he => hk he.symm)] at h
      simp [sLookup] at h
  | cons e tl ih =>
    intro h
    by_cases he : e.1 = ext
    · rw [extsAdd, if_pos he] at h
      by_cases hek : e.1 = k
      · exact Or.inl (hek.symm.trans he)
      · rw [sLookup, if_neg hek] at h
        right
        rw [sLookup, if_neg hek]
        exact h
    · rw [extsAdd, if_neg he] at h
      by_cases hek : e.1 = k
      · right
        rw [sLookup, if_pos hek]
        rfl
      · rw [sLookup, if_neg hek] at h
        rcases ih h with h1 | h1
        · exact Or.inl h1
        · right
          rw [sLookup, if_neg hek]
          exact h1

theorem getExts_key_source (artifactId version : Chars) (ext : Chars) :
    ∀ (fns : List Chars) (acc : List (Chars × List Chars)),
      (sLookup ext (fns.foldl (fun exts f =>
        match classifyFile artifactId version f with
        | none => exts
        | some (cls, e) => extsAdd e (cls.getD []) exts) acc)).isSome →
      (sLookup ext acc).isSome ∨
        ∃ g ∈ fns, ∃ c, classifyFile artifactId version g = some (c, ext) := by
  intro fns
  induction fns with
  | nil =>
    intro acc h
    exact Or.inl h
  | cons f tl ih =>
    intro acc h
    simp only [List.foldl_cons] at h
    cases hcf : classifyFile artifactId version f with
    | none =>
      rw [hcf] at h
      rcases ih acc h with h1 | ⟨g, hg, c, hc⟩
      · exact Or.inl h1
      · exact Or.inr ⟨g, List.mem_cons_of_mem f hg, c, hc⟩
    | some ce =>
      rw [hcf] at h
      rcases ih _ h with h1 | ⟨g, hg, c, hc⟩
      · rcases extsAdd_lookup_isSome h1 with he | h2
        · refine Or.inr ⟨f, List.mem_cons_self f tl, ce.1, ?_⟩
          rw [hcf, he]
        · exact Or.inl h2
      · exact Or.inr ⟨g, List.mem_cons_of_mem f hg, c, hc⟩

/-- C7 counterexample: the filename `artifactId-version.md5` ends in a
checksum suffix but is classified as extension `md5`, because the checksum
regex demands at least one character between the version and the suffix
while `ceRegEx2` happily reads `.md5` as the extension. -/
theorem checksum_file_classified_as_extension :
    endsWithChecksum "a-1.0.md5".data = true ∧
    getExtensionsAndClassifiers "a".data "1.0".data ["a-1.0.md5".data] =
      [("md5".data, [[]])] := by
  constructor
  · decide
  · decide

/-- C7 (amended): for a non-snapshot version, no filename ending in a
checksum suffix (`.md5`, `.sha1`, `.sha256`, `.asc`) contributes an entry
to the extension map, EXCEPT the degenerate filename that is exactly
`artifactId-version.SUFFIX`; in a filename list without such degenerate
names, every extension key of the result comes from a file that is not
checksum-suffixed. -/
theorem checksum_files_never_classified (artifactId version : Chars)
    (hsnap : isSnapshotVersion version = false)
    (filenames : List Chars)
    (hdeg : ∀ f ∈ filenames, endsWithChecksum f = true →
      ∀ s ∈ checksumSuffixes, f ≠ artifactId ++ '-' :: version ++ '.' :: s) :
    (∀ f ∈ filenames, endsWithChecksum f = true →
      classifyFile artifactId version f = none) ∧
    (∀ ext, (sLookup ext (getExtensionsAndClassifiers artifactId version filenames)).isSome →
      ∃ g ∈ filenames, ∃ c, classifyFile artifactId version g = some (c, ext) ∧
        endsWithChecksum g = false) := by
  have h1 : ∀ f ∈ filenames, endsWithChecksum f = true →
      classifyFile artifactId version f = none := by
    intro f hf hcs
    exact classifyFile_checksum_none artifactId version f hcs (hdeg f hf hcs)
  refine ⟨h1, ?_⟩
  intro ext hsome
  rcases getExts_key_source artifactId version ext filenames [] hsome with h0 | ⟨g, hg, c, hc⟩
  · simp [sLookup] at h0
  · refine ⟨g, hg, c, hc, ?_⟩
    by_cases hcg : endsWithChecksum g = true
    · rw [h1 g hg hcg] at hc
      exact absurd hc (by simp)
    · simpa using hcg

/-- C7 witness: the amended theorem at a concrete, realistic filename list
(a pom and its checksum). -/
theorem checksum_files_never_classified_witness :
    isSnapshotVersion "1.0".data = false ∧
    endsWithChecksum "a-1.0.pom.md5".data = true ∧
    (∀ f ∈ ["a-1.0.pom".data, "a-1.0.pom.md5".data], endsWithChecksum f = true →
      classifyFile "a".data "1.0".data f = none) := by
  have h := checksum_files_never_classified "a".data "1.0".data (by decide)
    ["a-1.0.pom".data, "a-1.0.pom.md5".data] (by decide)
  exact ⟨by decide, by decide, h.1⟩

/-! ### More association list lemmas (for the filter stage proofs) -/

theorem sLookup_cons {κ α : Type} [DecidableEq κ] (k : κ) (e : κ × α) (tl : List (κ × α)) :
    sLookup k (e :: tl) = if e.1 = k then some e.2 else sLookup k tl := rfl

theorem nodup_cons_fst {κ α : Type} {e : κ × α} {tl : List (κ × α)}
    (hnd : ((e :: tl).map Prod.fst).Nodup) :
    e.1 ∉ tl.map Prod.fst ∧ (tl.map Prod.fst).Nodup := by
  rw [List.map_cons] at hnd
  exact List.nodup_cons.mp hnd

theorem sLookup_eq_none_iff {κ α : Type} [DecidableEq κ] {k : κ} :
    ∀ {l : List (κ × α)}, sLookup k l = none ↔ k ∉ l.map Prod.fst := by
  intro l
  induction l with
  | nil => simp [sLookup]
  | cons e tl ih =>
    rw [sLookup_cons]
    by_cases he : e.1 = k
    · rw [if_pos he]
      constructor
      · intro h
        exact absurd h (by simp)
      · intro h
        exfalso
        apply h
        rw [List.map_cons, he]
        exact List.mem_cons_self k (tl.map Prod.fst)
    · rw [if_neg he, ih, List.map_cons]
      constructor
      · intro h hk
        rcases List.mem_cons.mp hk with h1 | h1
        · exact he h1.symm
        · exact h h1
      · intro h hk
        exact h (List.mem_cons_of_mem _ hk)

theorem sLookup_isSome_of_key_mem {κ α : Type} [DecidableEq κ] {k : κ}
    {l : List (κ × α)} (h : k ∈ l.map Prod.fst) : (sLookup k l).isSome := by
  cases hl : sLookup k l with
  | none => exact absurd (sLookup_eq_none_iff.mp hl) (by simp [h])
  | some a => rfl

theorem sLookup_eq_some_of_mem {κ α : Type} [DecidableEq κ] {k : κ} {a : α} :
    ∀ {l : List (κ × α)}, (l.map Prod.fst).Nodup → (k, a) ∈ l → sLookup k l = some a := by
  intro l
  induction l with
  | nil => intro _ hmem; simp at hmem
  | cons e tl ih =>
    intro hnd hmem
    rcases List.mem_cons.mp hmem with he | htl
    · rw [← he]
      simp [sLookup_cons]
    · have hk : k ∈ tl.map Prod.fst := List.mem_map.mpr ⟨(k, a), htl, rfl⟩
      have hne : e.1 ≠ k := by
        intro hek
        apply (nodup_cons_fst hnd).1
        rw [hek]
        exact hk
      rw [sLookup_cons, if_neg hne]
      exact ih (nodup_cons_fst hnd).2 htl

theorem sLookup_perm {κ α : Type} [DecidableEq κ] {l l' : List (κ × α)}
    (hperm : l.Perm l') (hnd : (l.map Prod.fst).Nodup) (k : κ) :
    sLookup k l = sLookup k l' := by
  have hnd' : (l'.map Prod.fst).Nodup := ((hperm.map Prod.fst).nodup_iff).mp hnd
  cases hl : sLookup k l with
  | none =>
    rw [eq_comm, sLookup_eq_none_iff]
    intro hk
    exact (sLookup_eq_none_iff.mp hl) (((hperm.map Prod.fst).mem_iff).mpr hk)
  | some a =>
    rw [eq_comm]
    exact sLookup_eq_some_of_mem hnd' (hperm.mem_iff.mp (sLookup_some_mem hl))

theorem sLookup_map_values {κ α β : Type} [DecidableEq κ] (g : κ → α → β)
    (l : List (κ × α)) (k : κ) :
    sLookup k (l.map (fun e => (e.1, g e.1 e.2))) = (sLookup k l).map (g k) := by
  induction l with
  | nil => simp [sLookup]
  | cons e tl ih =>
    by_cases he : e.1 = k
    · subst he
      simp [sLookup_cons]
    · rw [List.map_cons, sLookup_cons, sLookup_cons, if_neg he, if_neg he, ih]

theorem map_fst_map_values {κ α β : Type} (g : κ → α → β) (l : List (κ × α)) :
    (l.map (fun e => (e.1, g e.1 e.2))).map Prod.fst = l.map Prod.fst := by
  simp [List.map_map]

theorem sLookup_filter_sub_none {κ α : Type} [DecidableEq κ] {k : κ}
    {l : List (κ × α)} (q : κ × α → Bool) (h : sLookup k l = none) :
    sLookup k (l.filter q) = none := by
  rw [sLookup_eq_none_iff] at h ⊢
  intro hk
  apply h
  obtain ⟨e, he, hek⟩ := List.mem_map.mp hk
  exact List.mem_map.mpr ⟨e, List.mem_of_mem_filter he, hek⟩

theorem sLookup_map_filter {κ α β : Type} [DecidableEq κ] (g : κ → α → β)
    (q : κ → β → Bool) (l : List (κ × α)) (k : κ) (hnd : (l.map Prod.fst).Nodup) :
    sLookup k ((l.map (fun e => (e.1, g e.1 e.2))).filter (fun e => q e.1 e.2)) =
      (sLookup k l).bind (fun a => if q k (g k a) then some (g k a) else none) := by
  induction l with
  | nil => simp [sLookup]
  | cons e tl ih =>
    have hnd' : (tl.map Prod.fst).Nodup := (nodup_cons_fst hnd).2
    have hknotin : e.1 ∉ tl.map Prod.fst := (nodup_cons_fst hnd).1
    by_cases he : e.1 = k
    · subst he
      by_cases hq : q e.1 (g e.1 e.2)
      · rw [List.map_cons, List.filter_cons_of_pos (by simpa using hq)]
        simp [sLookup_cons, hq]
      · rw [List.map_cons, List.filter_cons_of_neg (by simpa using hq)]
        have hnone : sLookup e.1 (tl.map (fun e => (e.1, g e.1 e.2))) = none := by
          rw [sLookup_eq_none_iff, map_fst_map_values]
          exact hknotin
        rw [sLookup_filter_sub_none _ hnone]
        rw [sLookup_cons, if_pos rfl]
        simp [hq]
    · rw [List.map_cons]
      by_cases hq : q e.1 (g e.1 e.2)
      · rw [List.filter_cons_of_pos (by simpa using hq), sLookup_cons, if_neg he]
        rw [ih hnd', sLookup_cons, if_neg he]
      · rw [List.filter_cons_of_neg (by simpa using hq)]
        rw [ih hnd', sLookup_cons, if_neg he]

theorem sLookup_filterMap {κ α β : Type} [DecidableEq κ] (f : κ → α → Option β)
    (l : List (κ × α)) (k : κ) (hnd : (l.map Prod.fst).Nodup) :
    sLookup k (l.filterMap (fun e => (f e.1 e.2).map (fun b => (e.1, b)))) =
      (sLookup k l).bind (f k) := by
  induction l with
  | nil => simp [sLookup]
  | cons e tl ih =>
    have hnd' : (tl.map Prod.fst).Nodup := (nodup_cons_fst hnd).2
    have hknotin : e.1 ∉ tl.map Prod.fst := (nodup_cons_fst hnd).1
    rw [List.filterMap_cons]
    cases hf : f e.1 e.2 with
    | none =>
      simp only [Option.map_none']
      rw [ih hnd']
      by_cases he : e.1 = k
      · subst he
        rw [sLookup_eq_none_iff.mpr hknotin, sLookup_cons, if_pos rfl]
        simp [hf]
      · rw [sLookup_cons, if_neg he]
    | some b =>
      simp only [Option.map_some']
      by_cases he : e.1 = k
      · subst he
        rw [sLookup_cons, if_pos rfl, sLookup_cons, if_pos rfl]
        simp [hf]
      · rw [sLookup_cons, if_neg he, ih hnd', sLookup_cons, if_neg he]

theorem keyed_filter_single {κ α : Type} [DecidableEq κ] {k0 : κ} {drop : List κ}
    (hk0 : k0 ∉ drop) {a0 : α} :
    ∀ {l : List (κ × α)}, (l.map Prod.fst).Nodup → (∀ e ∈ l, e.1 = k0 ∨ e.1 ∈ drop) →
      sLookup k0 l = some a0 → l.filter (fun e => decide (e.1 ∉ drop)) = [(k0, a0)] := by
  intro l
  induction l with
  | nil => intro _ _ hl; simp [sLookup] at hl
  | cons e tl ih =>
    intro hnd hmem hl
    by_cases he : e.1 = k0
    · have ha : e.2 = a0 := by
        rw [sLookup_cons, if_pos he] at hl
        exact Option.some.inj hl
      have htl : tl.filter (fun e => decide (e.1 ∉ drop)) = [] := by
        apply List.filter_eq_nil_iff.mpr
        intro x hx
        rcases hmem x (List.mem_cons_of_mem e hx) with h1 | h1
        · exfalso
          apply (nodup_cons_fst hnd).1
          rw [he, ← h1]
          exact List.mem_map.mpr ⟨x, hx, rfl⟩
        · simp [h1]
      rw [List.filter_cons_of_pos (by simp [he, hk0]), htl]
      have heq : e = (k0, a0) := by
        cases e with
        | mk x y =>
          simp only [Prod.mk.injEq]
          exact ⟨he, ha⟩
      rw [heq]
    · have hin : e.1 ∈ drop := by
        rcases hmem e (List.mem_cons_self e tl) with h1 | h1
        · exact absurd h1 he
        · exact h1
      rw [List.filter_cons_of_neg (by simp [hin])]
      apply ih (nodup_cons_fst hnd).2 (fun x hx => hmem x (List.mem_cons_of_mem e hx))
      rw [sLookup_cons, if_neg he] at hl
      exact hl

/-! ### Sorting lemmas for the priority maps -/

theorem insertPrio_perm (e : Nat × VerMap) (l : PrioMap) :
    (insertPrio e l).Perm (e :: l) := by
  induction l with
  | nil => simp [insertPrio]
  | cons x xs ih =>
    rw [insertPrio]
    by_cases hle : e.1 ≤ x.1
    · simp [hle]
    · rw [if_neg hle]
      exact (ih.cons x).trans (List.Perm.swap e x xs)

theorem sortPrios_perm (pm : PrioMap) : (sortPrios pm).Perm pm := by
  induction pm with
  | nil => simp [sortPrios]
  | cons e tl ih =>
    rw [sortPrios]
    exact (insertPrio_perm e (sortPrios tl)).trans (ih.cons e)

theorem insertPrio_pairwise (e : Nat × VerMap) (l : PrioMap)
    (h : l.Pairwise (fun a b => a.1 ≤ b.1)) :
    (insertPrio e l).Pairwise (fun a b => a.1 ≤ b.1) := by
  induction l with
  | nil => simp [insertPrio]
  | cons x xs ih =>
    rw [insertPrio]
    by_cases hle : e.1 ≤ x.1
    · rw [if_pos hle]
      apply List.Pairwise.cons _ h
      intro b hb
      rcases List.mem_cons.mp hb with h1 | h1
      · rw [h1]; exact hle
      · exact le_trans hle ((List.pairwise_cons.mp h).1 b h1)
    · rw [if_neg hle]
      have hx := List.pairwise_cons.mp h
      apply List.Pairwise.cons _ (ih hx.2)
      intro b hb
      have hb' := (insertPrio_perm e xs).mem_iff.mp hb
      rcases List.mem_cons.mp hb' with h1 | h1
      · rw [h1]; omega
      · exact hx.1 b h1

theorem sortPrios_pairwise (pm : PrioMap) :
    (sortPrios pm).Pairwise (fun a b => a.1 ≤ b.1) := by
  induction pm with
  | nil => simp [sortPrios]
  | cons e tl ih =>
    rw [sortPrios]
    exact insertPrio_pairwise e (sortPrios tl) ih

theorem sortPrios_pairwise_lt (pm : PrioMap) (hnd : (pm.map Prod.fst).Nodup) :
    (sortPrios pm).Pairwise (fun a b => a.1 < b.1) := by
  have hperm := sortPrios_perm pm
  have hnd' : ((sortPrios pm).map Prod.fst).Nodup :=
    ((hperm.map Prod.fst).nodup_iff).mpr hnd
  have hle := sortPrios_pairwise pm
  have hne : (sortPrios pm).Pairwise (fun a b => a.1 ≠ b.1) :=
    (List.pairwise_map.mp hnd')
  exact (hle.and hne).imp (fun h => lt_of_le_of_ne h.1 h.2)

/-! ### Well-formedness of the nested dictionaries

Every Python dictionary has unique keys; the association-list model records
this as an explicit invariant carried by the filter theorems. -/

/-- Unique keys at every level of the artifact list (groupId:artifactId,
priority, version and artifact-type keys). -/
def WFArtifactList (al : ArtifactList) : Prop :=
  (al.map Prod.fst).Nodup ∧ ∀ gapm ∈ al, (gapm.2.map Prod.fst).Nodup ∧
    ∀ pvm ∈ gapm.2, (pvm.2.map Prod.fst).Nodup ∧
      ∀ vs ∈ pvm.2, ((vs.2 : ArtifactSpec).artTypes.map Prod.fst).Nodup

instance WFArtifactList.decidable (al : ArtifactList) : Decidable (WFArtifactList al) := by
  unfold WFArtifactList
  infer_instance

theorem isEmpty_false_of_lookup {κ α : Type} [DecidableEq κ] {k : κ} {a : α}
    {l : List (κ × α)} (h : sLookup k l = some a) : l.isEmpty = false := by
  cases l with
  | nil => simp [sLookup] at h
  | cons e tl => rfl

theorem lookup_ne_nil {κ α : Type} [DecidableEq κ] {k : κ} {a : α}
    {l : List (κ × α)} (h : sLookup k l = some a) : l ≠ [] := by
  intro he
  subst he
  simp [sLookup] at h

/-! ### Lookup composition through the per-leaf filter skeleton -/

theorem filterLeaves_ga (f : String → String → ArtifactSpec → Option ArtifactSpec)
    (al : ArtifactList) (hnd : (al.map Prod.fst).Nodup) (ga : String) :
    sLookup ga (filterLeaves f al) = (sLookup ga al).bind (fun pm =>
      if !(filterLeavesPM f ga pm).isEmpty then some (filterLeavesPM f ga pm) else none) := by
  unfold filterLeaves
  exact sLookup_map_filter (fun ga pm => filterLeavesPM f ga pm)
    (fun _ pm' => !pm'.isEmpty) al ga hnd

theorem filterLeavesPM_p (f : String → String → ArtifactSpec → Option ArtifactSpec)
    (ga : String) (pm : PrioMap) (hnd : (pm.map Prod.fst).Nodup) (p : Nat) :
    sLookup p (filterLeavesPM f ga pm) = (sLookup p pm).bind (fun vm =>
      if !(filterLeavesVM f ga vm).isEmpty then some (filterLeavesVM f ga vm) else none) := by
  unfold filterLeavesPM
  exact sLookup_map_filter (fun _ vm => filterLeavesVM f ga vm)
    (fun _ vm' => !vm'.isEmpty) pm p hnd

theorem filterLeavesVM_v (f : String → String → ArtifactSpec → Option ArtifactSpec)
    (ga : String) (vm : VerMap) (hnd : (vm.map Prod.fst).Nodup) (v : String) :
    sLookup v (filterLeavesVM f ga vm) = (sLookup v vm).bind (f ga v) := by
  unfold filterLeavesVM
  exact sLookup_filterMap (f ga) vm v hnd

/-- Any version leaf visible through lookups after a per-leaf filter stage
equals `f` applied to the corresponding input leaf. -/
theorem filterLeaves_leaf_eq (f : String → String → ArtifactSpec → Option ArtifactSpec)
    (al : ArtifactList) (hwf : WFArtifactList al) {ga : String} {pm : PrioMap}
    (hga : sLookup ga al = some pm) {p : Nat} {pm' : PrioMap} {vm' : VerMap}
    (hga' : sLookup ga (filterLeaves f al) = some pm')
    (hp' : sLookup p pm' = some vm') (v : String) :
    ∃ vm, sLookup p pm = some vm ∧ vm' = filterLeavesVM f ga vm ∧
      sLookup v vm' = (sLookup v vm).bind (f ga v) := by
  have hwfpm := hwf.2 (ga, pm) (sLookup_some_mem hga)
  rw [filterLeaves_ga f al hwf.1 ga, hga] at hga'
  simp only [Option.some_bind] at hga'
  have hpm' : pm' = filterLeavesPM f ga pm := by
    cases hempty : (filterLeavesPM f ga pm).isEmpty with
    | true =>
      rw [hempty] at hga'
      simp at hga'
    | false =>
      rw [hempty] at hga'
      simp at hga'
      exact hga'.symm
  subst hpm'
  rw [filterLeavesPM_p f ga pm hwfpm.1 p] at hp'
  cases hpvm : sLookup p pm with
  | none =>
    rw [hpvm] at hp'
    simp at hp'
  | some vm =>
    rw [hpvm] at hp'
    simp only [Option.some_bind] at hp'
    have hvm' : vm' = filterLeavesVM f ga vm := by
      cases hempty : (filterLeavesVM f ga vm).isEmpty with
      | true =>
        rw [hempty] at hp'
        simp at hp'
      | false =>
        rw [hempty] at hp'
        simp at hp'
        exact hp'.symm
    have hwfvm := (hwfpm.2 (p, vm) (sLookup_some_mem hpvm)).1
    refine ⟨vm, rfl, hvm', ?_⟩
    rw [hvm']
    exact filterLeavesVM_v f ga vm hwfvm v


/-- Converse direction: an input leaf that `f` keeps is visible in the
output at the same coordinates, with value `f ga v s`. -/
theorem filterLeaves_leaf_kept (f : String → String → ArtifactSpec → Option ArtifactSpec)
    (al : ArtifactList) (hwf : WFArtifactList al) {ga : String} {pm : PrioMap}
    {p : Nat} {vm : VerMap} {v : String} {s s' : ArtifactSpec}
    (hga : sLookup ga al = some pm) (hp : sLookup p pm = some vm)
    (hv : sLookup v vm = some s) (hf : f ga v s = some s') :
    ∃ pm' vm', sLookup ga (filterLeaves f al) = some pm' ∧
      sLookup p pm' = some vm' ∧ sLookup v vm' = some s' := by
  have hwfpm := hwf.2 (ga, pm) (sLookup_some_mem hga)
  have hwfvm := (hwfpm.2 (p, vm) (sLookup_some_mem hp)).1
  have hvm' : sLookup v (filterLeavesVM f ga vm) = some s' := by
    rw [filterLeavesVM_v f ga vm hwfvm v, hv]
    simp [hf]
  have hvmne : (filterLeavesVM f ga vm).isEmpty = false := isEmpty_false_of_lookup hvm'
  have hp' : sLookup p (filterLeavesPM f ga pm) = some (filterLeavesVM f ga vm) := by
    rw [filterLeavesPM_p f ga pm hwfpm.1 p, hp, Option.some_bind, hvmne]
    rfl
  have hpmne : (filterLeavesPM f ga pm).isEmpty = false := isEmpty_false_of_lookup hp'
  refine ⟨filterLeavesPM f ga pm, filterLeavesVM f ga vm, ?_, hp', hvm'⟩
  rw [filterLeaves_ga f al hwf.1 ga, hga, Option.some_bind, hpmne]
  rfl

/-! ### Claim C5: the excluded-GAV filter -/

theorem excludedGavLeaf_match_none (gavPats gatcvPats : List Pat) (ga v : String)
    (s : ArtifactSpec) (hm : somethingMatch gavPats (ga ++ ":" ++ v) = true) :
    excludedGavLeaf gavPats gatcvPats ga v s = none := by
  simp [excludedGavLeaf, hm]

theorem excludedGavLeaf_some_char {gavPats gatcvPats : List Pat} {ga v : String}
    {s s' : ArtifactSpec}
    (h : excludedGavLeaf gavPats gatcvPats ga v s = some s') :
    s'.url = s.url ∧ s'.paths = s.paths ∧ s'.containsMain = true ∧
    s'.artTypes = gavFilteredTypes gatcvPats ga v s := by
  simp only [excludedGavLeaf] at h
  by_cases hm : somethingMatch gavPats (ga ++ ":" ++ v)
  · rw [if_pos hm] at h
    exact absurd h (by simp)
  · rw [if_neg hm] at h
    by_cases hmain :
        (ArtifactSpec.containsMain { s with artTypes := gavFilteredTypes gatcvPats ga v s })
    · rw [if_pos hmain] at h
      have hs := Option.some.inj h
      rw [← hs]
      exact ⟨rfl, rfl, hmain, rfl⟩
    · rw [if_neg hmain] at h
      exact absurd h (by simp)

theorem gavFilteredTypes_lookup (gatcvPats : List Pat) (ga v : String)
    (s : ArtifactSpec) (hnd : (s.artTypes.map Prod.fst).Nodup) (t : String) :
    sLookup t (gavFilteredTypes gatcvPats ga v s) =
      (sLookup t s.artTypes).bind (fun at0 =>
        if !(gavFilteredAT gatcvPats ga t v at0).classifiers.isEmpty
        then some (gavFilteredAT gatcvPats ga t v at0)
        else none) := by
  unfold gavFilteredTypes
  exact sLookup_map_filter (fun t at0 => gavFilteredAT gatcvPats ga t v at0)
    (fun _ at1 => !at1.classifiers.isEmpty) s.artTypes t hnd

/-- C5: patterns with at most 2 colons are GAV-shaped and a match deletes
the whole version entry at every priority of the groupId:artifactId;
patterns with more than 2 colons are GATCV-shaped and, for a version not
matching any GAV-shaped pattern, remove exactly the matching classifiers,
then a type once it has no classifiers left, and the version entry itself
exactly when no main type remains. -/
theorem excluded_gav_filter (pats : List Pat) (al : ArtifactList)
    (hwf : WFArtifactList al)
    {ga : String} {pm : PrioMap} {p : Nat} {vm : VerMap} {v : String} {s : ArtifactSpec}
    (hga : sLookup ga al = some pm) (hp : sLookup p pm = some vm)
    (hv : sLookup v vm = some s) :
    (somethingMatch (pats.filter (fun q => !decide (countColons q.pattern > 2)))
        (ga ++ ":" ++ v) = true →
      ∀ p' pm' vm', sLookup ga (filterExcludedGAVs pats al) = some pm' →
        sLookup p' pm' = some vm' → sLookup v vm' = none) ∧
    (∀ s', excludedGavLeaf (pats.filter (fun q => !decide (countColons q.pattern > 2)))
        (pats.filter (fun q => decide (countColons q.pattern > 2))) ga v s = some s' →
      (∃ pm' vm', sLookup ga (filterExcludedGAVs pats al) = some pm' ∧
        sLookup p pm' = some vm' ∧ sLookup v vm' = some s') ∧
      s'.url = s.url ∧ s'.paths = s.paths ∧ s'.containsMain = true ∧
      (∀ t, sLookup t s'.artTypes = (sLookup t s.artTypes).bind (fun at0 =>
        if !(gavFilteredAT (pats.filter (fun q => decide (countColons q.pattern > 2))) ga t v at0).classifiers.isEmpty
        then some (gavFilteredAT (pats.filter (fun q => decide (countColons q.pattern > 2))) ga t v at0)
        else none))) ∧
    (excludedGavLeaf (pats.filter (fun q => !decide (countColons q.pattern > 2)))
        (pats.filter (fun q => decide (countColons q.pattern > 2))) ga v s = none →
      ∀ pm' vm', sLookup ga (filterExcludedGAVs pats al) = some pm' →
        sLookup p pm' = some vm' → sLookup v vm' = none) := by
  have hfilterdef : filterExcludedGAVs pats al =
      filterLeaves (excludedGavLeaf
        (pats.filter (fun q => !decide (countColons q.pattern > 2)))
        (pats.filter (fun q => decide (countColons q.pattern > 2)))) al := rfl
  refine ⟨?_, ?_, ?_⟩
  · intro hm p' pm' vm' hga' hp'
    rw [hfilterdef] at hga'
    obtain ⟨vm0, hpvm0, hvm'eq, hlook⟩ := filterLeaves_leaf_eq _ al hwf hga hga' hp' v
    rw [hlook]
    cases hs0 : sLookup v vm0 with
    | none => rfl
    | some s0 =>
      simp only [Option.some_bind]
      exact excludedGavLeaf_match_none _ _ ga v s0 hm
  · intro s' hf
    have hchar := excludedGavLeaf_some_char hf
    have hwfpm := hwf.2 (ga, pm) (sLookup_some_mem hga)
    have hwfvm := hwfpm.2 (p, vm) (sLookup_some_mem hp)
    have hndat := hwfvm.2 (v, s) (sLookup_some_mem hv)
    refine ⟨?_, hchar.1, hchar.2.1, hchar.2.2.1, ?_⟩
    · rw [hfilterdef]
      exact filterLeaves_leaf_kept _ al hwf hga hp hv hf
    · intro t
      rw [hchar.2.2.2]
      exact gavFilteredTypes_lookup _ ga v s hndat t
  · intro hf pm' vm' hga' hp'
    rw [hfilterdef] at hga'
    obtain ⟨vm0, hpvm0, hvm'eq, hlook⟩ := filterLeaves_leaf_eq _ al hwf hga hga' hp' v
    have hvm0 : vm0 = vm := by
      rw [hp] at hpvm0
      exact (Option.some.inj hpvm0).symm
    rw [hlook, hvm0, hv, Option.some_bind, hf]

/-- Example two-type spec used by the C5 witness. -/
def cexSpec5 : ArtifactSpec :=
  { url := "u", artTypes := [("jar", ⟨"jar", true, ["", "sources"]⟩), ("pom", ⟨"pom", false, [""]⟩)],
    paths := [] }

/-- The concrete excluded-GAV pattern `g:a:1.0` of the C5 witness. -/
def cexPat5 : Pat :=
  { pattern := "g:a:1.0", test := fun x => x == "g:a:1.0" }

/-- C5 witness: the pattern `g:a:1.0` (2 colons, hence GAV-shaped) removes
the whole version entry of `g:a` version `1.0` no matter how many types
and classifiers it has. -/
theorem excluded_gav_filter_witness :
    countColons cexPat5.pattern = 2 ∧
    somethingMatch ([cexPat5].filter (fun q => !decide (countColons q.pattern > 2)))
      ("g:a" ++ ":" ++ "1.0") = true ∧
    (∀ p' pm' vm',
      sLookup "g:a" (filterExcludedGAVs [cexPat5] [("g:a", [(1, [("1.0", cexSpec5)])])]) = some pm' →
      sLookup p' pm' = some vm' → sLookup "1.0" vm' = none) := by
  have h := @excluded_gav_filter [cexPat5] [("g:a", [(1, [("1.0", cexSpec5)])])]
    (by decide) "g:a" [(1, [("1.0", cexSpec5)])] 1
    [("1.0", cexSpec5)] "1.0" cexSpec5
    (by decide) (by decide) (by decide)
  exact ⟨by decide, by decide, h.1 (by decide)⟩

/-! ### Claim C3: the containsMain invariant through the pipeline -/

/-- Every version leaf of the artifact list has a main artifact type. -/
def AllMain (al : ArtifactList) : Prop :=
  ∀ gapm ∈ al, ∀ pvm ∈ gapm.2, ∀ vs ∈ pvm.2, (vs.2 : ArtifactSpec).containsMain = true

instance AllMain.decidable (al : ArtifactList) : Decidable (AllMain al) := by
  unfold AllMain
  infer_instance

theorem containsMain_congr {s s' : ArtifactSpec} (h : s'.artTypes = s.artTypes) :
    s'.containsMain = s.containsMain := by
  unfold ArtifactSpec.containsMain
  rw [h]

theorem if_some_eq {α : Type} {c : Bool} {x s' : α}
    (h : (if c = true then some x else none) = some s') : s' = x ∧ c = true := by
  cases c with
  | false => simp at h
  | true =>
    simp only [if_pos] at h
    exact ⟨(Option.some.inj h).symm, rfl⟩

/-- Every version leaf reachable by membership after a per-leaf filter
stage is the image under `f` of some input leaf. -/
theorem filterLeaves_leaf_mem (f : String → String → ArtifactSpec → Option ArtifactSpec)
    {al : ArtifactList} {ga : String} {pm' : PrioMap} {p : Nat} {vm' : VerMap}
    {v : String} {s' : ArtifactSpec}
    (h1 : (ga, pm') ∈ filterLeaves f al) (h2 : (p, vm') ∈ pm') (h3 : (v, s') ∈ vm') :
    ∃ pm vm s, (ga, pm) ∈ al ∧ (p, vm) ∈ pm ∧ (v, s) ∈ vm ∧ f ga v s = some s' := by
  have h1' := List.mem_of_mem_filter h1
  obtain ⟨gapm, hmem, heq⟩ := List.mem_map.mp h1'
  rw [Prod.mk.injEq] at heq
  obtain ⟨hga, hpm⟩ := heq
  rw [← hpm] at h2
  have h2' := List.mem_of_mem_filter h2
  obtain ⟨pvm, hmem2, heq2⟩ := List.mem_map.mp h2'
  rw [Prod.mk.injEq] at heq2
  obtain ⟨hp, hvm⟩ := heq2
  rw [← hvm] at h3
  obtain ⟨vs, hmem3, heq3⟩ := List.mem_filterMap.mp h3
  cases hfo : f gapm.1 vs.1 vs.2 with
  | none =>
    rw [hfo] at heq3
    simp at heq3
  | some s0 =>
    rw [hfo] at heq3
    simp only [Option.map_some', Option.some.injEq, Prod.mk.injEq] at heq3
    obtain ⟨hv, hs⟩ := heq3
    refine ⟨gapm.2, pvm.2, vs.2, ?_, ?_, ?_, ?_⟩
    · rw [← hga]
      exact hmem
    · rw [← hp]
      exact hmem2
    · rw [← hv]
      exact hmem3
    · rw [hga, hv, hs] at hfo
      exact hfo

theorem filterLeaves_allMain_of (f : String → String → ArtifactSpec → Option ArtifactSpec)
    (hf : ∀ ga v s s', f ga v s = some s' → s'.containsMain = true)
    (al : ArtifactList) : AllMain (filterLeaves f al) := by
  intro gapm h1 pvm h2 vs h3
  have h1' : (gapm.1, gapm.2) ∈ filterLeaves f al := by
    rw [Prod.mk.eta]
    exact h1
  have h2' : (pvm.1, pvm.2) ∈ gapm.2 := by
    rw [Prod.mk.eta]
    exact h2
  have h3' : (vs.1, vs.2) ∈ pvm.2 := by
    rw [Prod.mk.eta]
    exact h3
  obtain ⟨pm, vm, s, _, _, _, hfo⟩ := filterLeaves_leaf_mem f h1' h2' h3'
  exact hf _ _ _ _ hfo

theorem filterLeaves_allMain_preserve (f : String → String → ArtifactSpec → Option ArtifactSpec)
    (hf : ∀ ga v s s', f ga v s = some s' → s' = s)
    (al : ArtifactList) (h : AllMain al) : AllMain (filterLeaves f al) := by
  intro gapm h1 pvm h2 vs h3
  have h1' : (gapm.1, gapm.2) ∈ filterLeaves f al := by
    rw [Prod.mk.eta]
    exact h1
  have h2' : (pvm.1, pvm.2) ∈ gapm.2 := by
    rw [Prod.mk.eta]
    exact h2
  have h3' : (vs.1, vs.2) ∈ pvm.2 := by
    rw [Prod.mk.eta]
    exact h3
  obtain ⟨pm, vm, s, hm1, hm2, hm3, hfo⟩ := filterLeaves_leaf_mem f h1' h2' h3'
  rw [hf _ _ _ _ hfo]
  exact h (gapm.1, pm) hm1 (pvm.1, vm) hm2 (vs.1, s) hm3

theorem excludedGavLeaf_some_main (gavPats gatcvPats : List Pat) :
    ∀ ga v s s', excludedGavLeaf gavPats gatcvPats ga v s = some s' →
      s'.containsMain = true := by
  intro ga v s s' h
  exact (excludedGavLeaf_some_char h).2.2.1

theorem excludedTypeLeaf_some_main (exclTypes : List String) (whitelist : List Pat) :
    ∀ ga v s s', excludedTypeLeaf exclTypes whitelist ga v s = some s' →
      s'.containsMain = true := by
  intro ga v s s' h
  simp only [excludedTypeLeaf] at h
  obtain ⟨hs, hc⟩ := if_some_eq h
  rw [hs]
  exact hc

theorem excludedRepoLeaf_some_eq (gavExists : String → String → String → Bool)
    (repos : List String) :
    ∀ ga v s s', excludedRepoLeaf gavExists repos ga v s = some s' → s' = s := by
  intro ga v s s' h
  unfold excludedRepoLeaf at h
  by_cases hb : repos.any (fun r => gavExists r ga v)
  · rw [if_pos hb] at h
    exact absurd h (by simp)
  · rw [if_neg hb] at h
    exact (Option.some.inj h).symm

/-! #### Leaf origin through the duplicate filter -/

theorem vmErase_of_lookup_none {v : String} {vm : VerMap}
    (h : sLookup v vm = none) : vmErase v vm = vm := by
  induction vm with
  | nil => rfl
  | cons e tl ih =>
    rw [sLookup_cons] at h
    by_cases he : e.1 = v
    · rw [if_pos he] at h
      exact absurd h (by simp)
    · rw [if_neg he] at h
      unfold vmErase at ih ⊢
      rw [List.filter_cons_of_pos (by simp [he]), ih h]

theorem takeDup_snd_eq (v : String) :
    ∀ rest : PrioMap, (takeDup v rest).2 = rest.map (fun e => (e.1, vmErase v e.2)) := by
  intro rest
  induction rest with
  | nil => rfl
  | cons e tl ih =>
    rw [takeDup]
    cases hl : sLookup v e.2 with
    | some sr =>
      simp only []
      rw [List.map_cons, ih]
    | none =>
      simp only []
      rw [List.map_cons, ih, vmErase_of_lookup_none hl]

theorem processVM_fst_mem :
    ∀ (vm : VerMap) (rest : PrioMap) {v : String} {s' : ArtifactSpec},
      (v, s') ∈ (processVM vm rest).1 →
      ∃ s, (v, s) ∈ vm ∧ s'.artTypes = s.artTypes ∧ s'.url = s.url := by
  intro vm
  induction vm with
  | nil =>
    intro rest v s' h
    simp [processVM] at h
  | cons e vmtl ih =>
    intro rest v s' h
    rw [processVM] at h
    rcases List.mem_cons.mp h with hh | ht
    · rw [Prod.mk.injEq] at hh
      obtain ⟨hv, hs⟩ := hh
      refine ⟨e.2, ?_, by rw [hs], by rw [hs]⟩
      rw [hv]
      exact List.mem_cons_self e vmtl
    · obtain ⟨s, hmem, h1, h2⟩ := ih (takeDup e.1 rest).2 ht
      exact ⟨s, List.mem_cons_of_mem e hmem, h1, h2⟩

theorem processVM_snd_mem :
    ∀ (vm : VerMap) (rest : PrioMap) {pr : Nat} {vmr' : VerMap},
      (pr, vmr') ∈ (processVM vm rest).2 →
      ∃ vmr, (pr, vmr) ∈ rest ∧ ∀ e ∈ vmr', e ∈ vmr := by
  intro vm
  induction vm with
  | nil =>
    intro rest pr vmr' h
    exact ⟨vmr', h, fun e he => he⟩
  | cons e vmtl ih =>
    intro rest pr vmr' h
    rw [processVM] at h
    obtain ⟨vmr1, hmem1, hsub1⟩ := ih (takeDup e.1 rest).2 h
    rw [takeDup_snd_eq] at hmem1
    obtain ⟨e0, hmem0, heq0⟩ := List.mem_map.mp hmem1
    rw [Prod.mk.injEq] at heq0
    obtain ⟨hpr, hvm⟩ := heq0
    refine ⟨e0.2, ?_, ?_⟩
    · rw [← hpr]
      exact hmem0
    · intro x hx
      have := hsub1 x hx
      rw [← hvm] at this
      exact List.mem_of_mem_filter this

theorem dedupGo_leaf_mem :
    ∀ (n : Nat) (pm : PrioMap) {p : Nat} {vm' : VerMap} {v : String} {s' : ArtifactSpec},
      (p, vm') ∈ dedupGo n pm → (v, s') ∈ vm' →
      ∃ vm s, (p, vm) ∈ pm ∧ (v, s) ∈ vm ∧ s'.artTypes = s.artTypes := by
  intro n
  induction n with
  | zero =>
    intro pm p vm' v s' h1 _
    cases pm with
    | nil => simp [dedupGo] at h1
    | cons e rest => simp [dedupGo] at h1
  | succ n ih =>
    intro pm p vm' v s' h1 h2
    cases pm with
    | nil => simp [dedupGo] at h1
    | cons e rest =>
      rw [dedupGo] at h1
      by_cases hemp : ((processVM e.2 rest).1).isEmpty
      · rw [if_pos hemp] at h1
        obtain ⟨vm, s, hm1, hm2, hm3⟩ := ih (processVM e.2 rest).2 h1 h2
        obtain ⟨vmr, hmr, hsub⟩ := processVM_snd_mem e.2 rest hm1
        exact ⟨vmr, s, List.mem_cons_of_mem e hmr, hsub _ hm2, hm3⟩
      · rw [if_neg hemp] at h1
        rcases List.mem_cons.mp h1 with hh | ht
        · rw [Prod.mk.injEq] at hh
          obtain ⟨hp, hvm⟩ := hh
          rw [hvm] at h2
          obtain ⟨s, hmem, ha, _⟩ := processVM_fst_mem e.2 rest h2
          refine ⟨e.2, s, ?_, hmem, ha⟩
          rw [hp]
          exact List.mem_cons_self e rest
        · obtain ⟨vm, s, hm1, hm2, hm3⟩ := ih (processVM e.2 rest).2 ht h2
          obtain ⟨vmr, hmr, hsub⟩ := processVM_snd_mem e.2 rest hm1
          exact ⟨vmr, s, List.mem_cons_of_mem e hmr, hsub _ hm2, hm3⟩

theorem filterDuplicates_allMain (al : ArtifactList) (h : AllMain al) :
    AllMain (filterDuplicates al) := by
  intro gapm h1 pvm h2 vs h3
  have h1' := List.mem_of_mem_filter h1
  obtain ⟨gapm0, hmem, heq⟩ := List.mem_map.mp h1'
  have heq2 : (gapm0.1, filterDuplicatesGA gapm0.2) = (gapm.1, gapm.2) := by
    rw [heq, Prod.mk.eta]
  rw [Prod.mk.injEq] at heq2
  obtain ⟨hga, hpm⟩ := heq2
  rw [← hpm] at h2
  unfold filterDuplicatesGA at h2
  obtain ⟨vm, s, hm1, hm2, hm3⟩ := dedupGo_leaf_mem _ _
    (by simpa using h2 : (pvm.1, pvm.2) ∈ dedupGo gapm0.2.length (sortPrios gapm0.2))
    (by simpa using h3 : (vs.1, vs.2) ∈ pvm.2)
  have hm1' : (pvm.1, vm) ∈ gapm0.2 := (sortPrios_perm gapm0.2).mem_iff.mp hm1
  have hmain := h gapm0 hmem (pvm.1, vm) hm1' (vs.1, s) hm2
  rw [containsMain_congr hm3]
  exact hmain

theorem filterMultipleVersionsGA_leaf_mem (mvPats : List Pat)
    (sortV : List String → List String) (ga : String) (pm : PrioMap)
    {p : Nat} {vm' : VerMap} {v : String} {s' : ArtifactSpec}
    (h1 : (p, vm') ∈ filterMultipleVersionsGA mvPats sortV ga pm) (h2 : (v, s') ∈ vm') :
    ∃ vm, (p, vm) ∈ pm ∧ (v, s') ∈ vm := by
  unfold filterMultipleVersionsGA at h1
  by_cases hm : somethingMatch mvPats ga
  · rw [if_pos hm] at h1
    exact ⟨vm', h1, h2⟩
  · rw [if_neg hm] at h1
    cases hk : (sortPrios pm).map Prod.fst with
    | nil =>
      rw [hk] at h1
      exact ⟨vm', h1, h2⟩
    | cons p0 ptail =>
      rw [hk] at h1
      simp only [] at h1
      have h1' := List.mem_of_mem_filter h1
      obtain ⟨pvm, hmem, heq⟩ := List.mem_map.mp h1'
      rw [Prod.mk.injEq] at heq
      obtain ⟨hp, hvm⟩ := heq
      refine ⟨pvm.2, by rw [← hp]; exact hmem, ?_⟩
      rw [← hvm] at h2
      by_cases hpp : pvm.1 = p0
      · rw [if_pos hpp] at h2
        exact List.mem_of_mem_filter h2
      · rw [if_neg hpp] at h2
        exact h2

theorem filterMultipleVersions_allMain (mvPats : List Pat)
    (sortV : List String → List String) (al : ArtifactList) (h : AllMain al) :
    AllMain (filterMultipleVersions mvPats sortV al) := by
  intro gapm h1 pvm h2 vs h3
  unfold filterMultipleVersions at h1
  obtain ⟨gapm0, hmem, heq⟩ := List.mem_map.mp h1
  have heq2 : (gapm0.1, filterMultipleVersionsGA mvPats sortV gapm0.1 gapm0.2) =
      (gapm.1, gapm.2) := by
    rw [heq, Prod.mk.eta]
  rw [Prod.mk.injEq] at heq2
  obtain ⟨hga, hpm⟩ := heq2
  rw [← hpm] at h2
  obtain ⟨vm, hm1, hm2⟩ := filterMultipleVersionsGA_leaf_mem mvPats sortV gapm0.1 gapm0.2
    (by simpa using h2) (by simpa using h3)
  exact h gapm0 hmem (pvm.1, vm) hm1 (vs.1, vs.2) hm2

/-- Example configuration with nothing excluded and the single-version
stage off: only the duplicate filter runs. -/
def cexCfgEmpty : FilterConfig :=
  { excludedGAVs := [], excludedTypes := [], gatcvWhitelist := [],
    singleVersion := false, multiVersionGAs := [], excludedRepositories := [] }

/-- A spec with no main artifact type. -/
def cexNoMainSpec : ArtifactSpec :=
  { url := "u", artTypes := [("pom", ⟨"pom", false, [""]⟩)], paths := [] }

/-- C3 counterexample: the pipeline does not ESTABLISH the containsMain
invariant — with no exclusions configured, a leaf with
`containsMain() == false` passes `Filter.filter` untouched (only the
duplicate filter runs, and it never checks containsMain). -/
theorem pipeline_keeps_nonmain_leaf :
    cexNoMainSpec.containsMain = false ∧
    filterPipeline cexCfgEmpty (fun vs => vs) (fun _ _ _ => false)
        [("g:a", [(1, [("1.0", cexNoMainSpec)])])] =
      [("g:a", [(1, [("1.0", cexNoMainSpec)])])] := by
  constructor
  · rfl
  · rfl

/-- C3 (amended): `containsMain()` is false iff every ArtifactType has
`mainType` false; and the pipeline PRESERVES (rather than establishes) the
all-leaves-main invariant: if every leaf of the input satisfies
containsMain, every leaf after `Filter.filter` does too, for every
configuration and every choice of the external version sorter and
repository probe. -/
theorem containsMain_invariant :
    (∀ s : ArtifactSpec, s.containsMain = false ↔ ∀ e ∈ s.artTypes, e.2.mainType = false) ∧
    (∀ (cfg : FilterConfig) (sortV : List String → List String)
        (exf : String → String → String → Bool) (al : ArtifactList),
      AllMain al → AllMain (filterPipeline cfg sortV exf al)) := by
  constructor
  · intro s
    unfold ArtifactSpec.containsMain
    rw [List.any_eq_false]
    constructor
    · intro h e he
      exact Bool.eq_false_iff.mpr (h e he)
    · intro h e he
      exact Bool.eq_false_iff.mp (h e he)
  · intro cfg sortV exf al h
    unfold filterPipeline
    have h1 : AllMain (if !cfg.excludedGAVs.isEmpty
        then filterExcludedGAVs cfg.excludedGAVs al else al) := by
      by_cases hb : !cfg.excludedGAVs.isEmpty
      · rw [if_pos hb]
        exact filterLeaves_allMain_of _ (excludedGavLeaf_some_main _ _) al
      · rw [if_neg hb]
        exact h
    have h2 : AllMain (if !cfg.excludedTypes.isEmpty
        then filterExcludedTypes cfg.excludedTypes cfg.gatcvWhitelist
          (if !cfg.excludedGAVs.isEmpty then filterExcludedGAVs cfg.excludedGAVs al else al)
        else (if !cfg.excludedGAVs.isEmpty then filterExcludedGAVs cfg.excludedGAVs al else al)) := by
      by_cases hb : !cfg.excludedTypes.isEmpty
      · rw [if_pos hb]
        exact filterLeaves_allMain_of _ (excludedTypeLeaf_some_main _ _) _
      · rw [if_neg hb]
        exact h1
    have h3 := filterDuplicates_allMain _ h2
    have h4 : AllMain (if cfg.singleVersion
        then filterMultipleVersions cfg.multiVersionGAs sortV
          (filterDuplicates (if !cfg.excludedTypes.isEmpty
            then filterExcludedTypes cfg.excludedTypes cfg.gatcvWhitelist
              (if !cfg.excludedGAVs.isEmpty then filterExcludedGAVs cfg.excludedGAVs al else al)
            else (if !cfg.excludedGAVs.isEmpty then filterExcludedGAVs cfg.excludedGAVs al else al)))
        else filterDuplicates (if !cfg.excludedTypes.isEmpty
            then filterExcludedTypes cfg.excludedTypes cfg.gatcvWhitelist
              (if !cfg.excludedGAVs.isEmpty then filterExcludedGAVs cfg.excludedGAVs al else al)
            else (if !cfg.excludedGAVs.isEmpty then filterExcludedGAVs cfg.excludedGAVs al else al))) := by
      by_cases hb : cfg.singleVersion
      · rw [if_pos hb]
        exact filterMultipleVersions_allMain _ _ _ h3
      · rw [if_neg hb]
        exact h3
    by_cases hb : !cfg.excludedRepositories.isEmpty
    · rw [if_pos hb]
      exact filterLeaves_allMain_preserve _ (excludedRepoLeaf_some_eq _ _) _ h4
    · rw [if_neg hb]
      exact h4

/-- C3 witness: the preservation direction at a concrete input whose only
leaf has a main type. -/
theorem containsMain_invariant_witness :
    AllMain [("g:a", [(1, [("1.0", cexSpec4)])])] ∧
    AllMain (filterPipeline cexCfgEmpty (fun vs => vs) (fun _ _ _ => false)
      [("g:a", [(1, [("1.0", cexSpec4)])])]) := by
  have hall : AllMain [("g:a", [(1, [("1.0", cexSpec4)])])] := by decide
  exact ⟨hall, (containsMain_invariant).2 cexCfgEmpty (fun vs => vs) (fun _ _ _ => false)
    [("g:a", [(1, [("1.0", cexSpec4)])])] hall⟩

/-! ### Claim C6: the single-version filter -/

theorem sorted_keys_head (pm : PrioMap) (hnd : (pm.map Prod.fst).Nodup)
    {p0 : Nat} (hp0mem : p0 ∈ pm.map Prod.fst)
    (hmin : ∀ q ∈ pm.map Prod.fst, p0 ≤ q)
    {q : Nat} {qtail : List Nat}
    (hk : (sortPrios pm).map Prod.fst = q :: qtail) :
    q = p0 ∧ p0 ∉ qtail := by
  have hperm : ((sortPrios pm).map Prod.fst).Perm (pm.map Prod.fst) :=
    (sortPrios_perm pm).map Prod.fst
  have hsorted : ((sortPrios pm).map Prod.fst).Pairwise (· ≤ ·) := by
    rw [List.pairwise_map]
    exact sortPrios_pairwise pm
  have hnd' : ((sortPrios pm).map Prod.fst).Nodup := hperm.nodup_iff.mpr hnd
  rw [hk] at hperm hsorted hnd'
  have hqmem : q ∈ pm.map Prod.fst := hperm.mem_iff.mp (List.mem_cons_self q qtail)
  have hq1 : p0 ≤ q := hmin q hqmem
  have hp0' : p0 ∈ q :: qtail := hperm.mem_iff.mpr hp0mem
  have hqp : q = p0 := by
    rcases List.mem_cons.mp hp0' with h1 | h1
    · exact h1.symm
    · exact le_antisymm ((List.pairwise_cons.mp hsorted).1 p0 h1) hq1
  refine ⟨hqp, ?_⟩
  rw [← hqp]
  exact (List.nodup_cons.mp hnd').1

/-- C6: for a groupId:artifactId matching the multi-version allow-list the
single-version stage leaves the entry unchanged; otherwise exactly one
priority bucket survives — the lowest-numbered one — and in it exactly one
version: the first element of the externally sorted version list (the
comparator maximum; a single version is not sorted).  The sorter is only
assumed to return a permutation of its input. -/
theorem single_version_filter (mvPats : List Pat) (sortV : List String → List String)
    (al : ArtifactList) {ga : String} {pm : PrioMap}
    (hga : sLookup ga al = some pm)
    (hnd : (pm.map Prod.fst).Nodup)
    (hbnd : ∀ pvm ∈ pm, ((pvm.2 : VerMap).map Prod.fst).Nodup) :
    (somethingMatch mvPats ga = true →
      sLookup ga (filterMultipleVersions mvPats sortV al) = some pm) ∧
    (somethingMatch mvPats ga = false →
      ∀ p0 vm0, sLookup p0 pm = some vm0 →
        (∀ q ∈ pm.map Prod.fst, p0 ≤ q) → vm0 ≠ [] →
        (if (vm0.map Prod.fst).length > 1 then sortV (vm0.map Prod.fst)
          else vm0.map Prod.fst).Perm (vm0.map Prod.fst) →
        ∃ vstar spec,
          (if (vm0.map Prod.fst).length > 1 then sortV (vm0.map Prod.fst)
            else vm0.map Prod.fst).head? = some vstar ∧
          sLookup vstar vm0 = some spec ∧
          sLookup ga (filterMultipleVersions mvPats sortV al) = some [(p0, [(vstar, spec)])]) := by
  have hlook : sLookup ga (filterMultipleVersions mvPats sortV al) =
      some (filterMultipleVersionsGA mvPats sortV ga pm) := by
    unfold filterMultipleVersions
    rw [sLookup_map_values (fun ga pm => filterMultipleVersionsGA mvPats sortV ga pm) al ga,
      hga]
    rfl
  constructor
  · intro hm
    rw [hlook]
    unfold filterMultipleVersionsGA
    rw [if_pos hm]
  · intro hm p0 vm0 hp0 hmin hne hperm
    have hp0mem : p0 ∈ pm.map Prod.fst :=
      List.mem_map.mpr ⟨(p0, vm0), sLookup_some_mem hp0, rfl⟩
    have hkex : ∃ q qtail, (sortPrios pm).map Prod.fst = q :: qtail := by
      cases hk : (sortPrios pm).map Prod.fst with
      | nil =>
        exfalso
        have : p0 ∈ ([] : List Nat) := by
          rw [← hk]
          exact (((sortPrios_perm pm).map Prod.fst).mem_iff).mpr hp0mem
        simp at this
      | cons q qtail => exact ⟨q, qtail, rfl⟩
    obtain ⟨q, qtail, hk⟩ := hkex
    obtain ⟨hqp, hnotin⟩ := sorted_keys_head pm hnd hp0mem hmin hk
    rw [hqp] at hk
    -- the sorted version list of the lowest bucket
    have hvers : ((sLookup p0 pm).getD []).map Prod.fst = vm0.map Prod.fst := by
      rw [hp0]
      rfl
    have hsne : (if (vm0.map Prod.fst).length > 1 then sortV (vm0.map Prod.fst)
        else vm0.map Prod.fst) ≠ [] := by
      intro h0
      rw [h0] at hperm
      have := hperm.symm.eq_nil
      exact hne (List.map_eq_nil_iff.mp this)
    obtain ⟨vstar, vrest, hsv⟩ : ∃ vstar vrest,
        (if (vm0.map Prod.fst).length > 1 then sortV (vm0.map Prod.fst)
          else vm0.map Prod.fst) = vstar :: vrest := by
      cases hc : (if (vm0.map Prod.fst).length > 1 then sortV (vm0.map Prod.fst)
          else vm0.map Prod.fst) with
      | nil => exact absurd hc hsne
      | cons a b => exact ⟨a, b, rfl⟩
    rw [hsv] at hperm
    have hbnd0 : (vm0.map Prod.fst).Nodup := hbnd (p0, vm0) (sLookup_some_mem hp0)
    have hsortnd : (vstar :: vrest).Nodup := hperm.nodup_iff.mpr hbnd0
    have hvstarmem : vstar ∈ vm0.map Prod.fst :=
      hperm.mem_iff.mp (List.mem_cons_self vstar vrest)
    obtain ⟨spec, hspec⟩ : ∃ spec, sLookup vstar vm0 = some spec := by
      cases hs : sLookup vstar vm0 with
      | none => exact absurd (sLookup_eq_none_iff.mp hs) (by simp [hvstarmem])
      | some spec => exact ⟨spec, rfl⟩
    refine ⟨vstar, spec, by rw [hsv]; rfl, hspec, ?_⟩
    rw [hlook]
    congr 1
    unfold filterMultipleVersionsGA
    rw [if_neg (by simp [hm]), hk]
    simp only [hvers, hsv]
    -- the surviving bucket
    have hbucket : vm0.filter (fun e => decide (e.1 ∉ (vstar :: vrest).drop 1)) =
        [(vstar, spec)] := by
      apply keyed_filter_single (List.nodup_cons.mp hsortnd).1 hbnd0 _ hspec
      intro e he
      have : e.1 ∈ vstar :: vrest :=
        hperm.mem_iff.mpr (List.mem_map.mpr ⟨e, he, rfl⟩)
      simpa using List.mem_cons.mp this
    -- the surviving priority map
    have hmapped : sLookup p0 (pm.map (fun pvm =>
        (pvm.1, if pvm.1 = p0
          then pvm.2.filter (fun e => decide (e.1 ∉ (vstar :: vrest).drop 1))
          else pvm.2))) = some (vm0.filter (fun e => decide (e.1 ∉ (vstar :: vrest).drop 1))) := by
      rw [sLookup_map_values (fun k vm =>
        if k = p0 then vm.filter (fun e => decide (e.1 ∉ (vstar :: vrest).drop 1)) else vm) pm p0,
        hp0]
      simp
    apply keyed_filter_single hnotin _ _ _
    · rw [map_fst_map_values (fun k vm =>
        if k = p0 then vm.filter (fun e => decide (e.1 ∉ (vstar :: vrest).drop 1)) else vm) pm]
      exact hnd
    · intro e he
      have he1 : e.1 ∈ pm.map Prod.fst := by
        have h2 := List.mem_map_of_mem Prod.fst he
        rw [map_fst_map_values (fun k vm =>
          if k = p0 then vm.filter (fun e => decide (e.1 ∉ (vstar :: vrest).drop 1)) else vm) pm]
          at h2
        exact h2
      have : e.1 ∈ p0 :: qtail := by
        rw [← hk]
        exact (((sortPrios_perm pm).map Prod.fst).mem_iff).mpr he1
      simpa using List.mem_cons.mp this
    · rw [hmapped, hbucket]

def cexSortV : List String → List String :=
  fun vs => if vs = ["1.0", "1.2", "1.1"] then ["1.2", "1.1", "1.0"] else vs

def cexVm6 : VerMap := [("1.0", cexSpec4), ("1.2", cexSpec4), ("1.1", cexSpec4)]

def cexPm6 : PrioMap := [(2, [("2.0", cexSpec4)]), (1, cexVm6)]

def cexAl6 : ArtifactList := [("g:a", cexPm6)]

/-- C6 witness: with no allow-list pattern, versions 1.0/1.2/1.1 at priority 1
and 2.0 at priority 2, and a sorter returning 1.2 first, the single-version
stage keeps exactly version 1.2 at priority 1. -/
theorem single_version_filter_witness :
    sLookup "g:a" cexAl6 = some cexPm6 ∧
    (∃ vstar spec,
      (if (cexVm6.map Prod.fst).length > 1 then cexSortV (cexVm6.map Prod.fst)
        else cexVm6.map Prod.fst).head? = some vstar ∧
      sLookup vstar cexVm6 = some spec ∧
      sLookup "g:a" (filterMultipleVersions [] cexSortV cexAl6) = some [(1, [(vstar, spec)])]) :=
  ⟨by decide,
    (@single_version_filter [] cexSortV cexAl6 "g:a" cexPm6 (by decide) (by decide)
      (by decide)).2 rfl 1 cexVm6 (by decide) (by decide) (by decide) (by decide)⟩

/-! ### Claim C1: the duplicate filter -/

theorem vmErase_lookup_self (v : String) (vm : VerMap) :
    sLookup v (vmErase v vm) = none := by
  rw [sLookup_eq_none_iff]
  intro h
  obtain ⟨e, he, hev⟩ := List.mem_map.mp h
  have hne := List.of_mem_filter he
  simp only [decide_eq_true_eq] at hne
  exact hne hev

theorem vmErase_lookup_ne {w v : String} (hne : w ≠ v) (vm : VerMap) :
    sLookup v (vmErase w vm) = sLookup v vm := by
  induction vm with
  | nil => rfl
  | cons e tl ih =>
    unfold vmErase at ih ⊢
    by_cases he : e.1 = w
    · rw [List.filter_cons_of_neg (by simp [he]), ih, sLookup_cons,
        if_neg (by rw [he]; exact hne)]
    · rw [List.filter_cons_of_pos (by simp [he]), sLookup_cons, sLookup_cons]
      by_cases hev : e.1 = v
      · rw [if_pos hev, if_pos hev]
      · rw [if_neg hev, if_neg hev, ih]

/-- Erase a list of version keys in sequence: the accumulated effect on a
higher-priority bucket of the `takeDup` calls made while `processVM` walks
the versions of the current bucket. -/
def vmEraseList : List String → VerMap → VerMap
  | [], vm => vm
  | w :: ws, vm => vmEraseList ws (vmErase w vm)

theorem vmEraseList_lookup (v : String) :
    ∀ (ws : List String) (vm : VerMap),
      sLookup v (vmEraseList ws vm) = if v ∈ ws then none else sLookup v vm := by
  intro ws
  induction ws with
  | nil => intro vm; simp [vmEraseList]
  | cons w ws ih =>
    intro vm
    rw [vmEraseList, ih]
    by_cases hv : v ∈ ws
    · rw [if_pos hv, if_pos (List.mem_cons_of_mem w hv)]
    · rw [if_neg hv]
      by_cases hw : w = v
      · subst hw
        rw [vmErase_lookup_self, if_pos (List.mem_cons_self w ws)]
      · rw [vmErase_lookup_ne hw, if_neg (by
          intro h
          rcases List.mem_cons.mp h with h1 | h1
          · exact hw h1.symm
          · exact hv h1)]

theorem takeDup_paths_head (v : String) (e : Nat × VerMap) (tl : PrioMap)
    {sq : ArtifactSpec} (hl : sLookup v e.2 = some sq) :
    ∀ path ∈ sq.paths, path ∈ (takeDup v (e :: tl)).1 := by
  intro path hp
  rw [takeDup]
  simp only [hl]
  by_cases hemp : sq.paths.isEmpty = true
  · rw [List.isEmpty_iff] at hemp
    rw [hemp] at hp
    simp at hp
  · rw [if_neg hemp]
    exact List.mem_append_left _ hp

theorem takeDup_paths_mono (v : String) (e : Nat × VerMap) (tl : PrioMap) :
    ∀ path ∈ (takeDup v tl).1, path ∈ (takeDup v (e :: tl)).1 := by
  intro path hp
  rw [takeDup]
  cases hl : sLookup v e.2 with
  | some sr =>
    simp only []
    by_cases hemp : sr.paths.isEmpty = true
    · rw [if_pos hemp]
      exact hp
    · rw [if_neg hemp]
      exact List.mem_append_right _ hp
  | none =>
    simp only []
    exact hp

theorem takeDup_paths (v : String) :
    ∀ (rest : PrioMap) {q : Nat} {vmq : VerMap} {sq : ArtifactSpec},
      (q, vmq) ∈ rest → sLookup v vmq = some sq →
      ∀ path ∈ sq.paths, path ∈ (takeDup v rest).1 := by
  intro rest
  induction rest with
  | nil =>
    intro q vmq sq h _ _ _
    simp at h
  | cons e tl ih =>
    intro q vmq sq hmem hl path hp
    rcases List.mem_cons.mp hmem with hh | ht
    · have hl2 : sLookup v e.2 = some sq := by
        rw [← hh]
        exact hl
      exact takeDup_paths_head v e tl hl2 path hp
    · exact takeDup_paths_mono v e tl path (ih ht hl path hp)

theorem processVM_snd_eq :
    ∀ (vm : VerMap) (rest : PrioMap),
      (processVM vm rest).2 =
        rest.map (fun e => (e.1, vmEraseList (vm.map Prod.fst) e.2)) := by
  intro vm
  induction vm with
  | nil =>
    intro rest
    simp [processVM, vmEraseList]
  | cons w vmtl ih =>
    intro rest
    rw [processVM]
    simp only []
    rw [ih, takeDup_snd_eq, List.map_map]
    apply List.map_congr_left
    intro e he
    simp [Function.comp, vmEraseList]

theorem processVM_snd_keys (vm : VerMap) (rest : PrioMap) :
    ((processVM vm rest).2).map Prod.fst = rest.map Prod.fst := by
  rw [processVM_snd_eq]
  exact map_fst_map_values (fun hole a => vmEraseList (vm.map Prod.fst) a) rest

theorem processVM_snd_length (vm : VerMap) (rest : PrioMap) :
    ((processVM vm rest).2).length = rest.length := by
  rw [processVM_snd_eq, List.length_map]

theorem processVM_fst_keys :
    ∀ (vm : VerMap) (rest : PrioMap),
      ((processVM vm rest).1).map Prod.fst = vm.map Prod.fst := by
  intro vm
  induction vm with
  | nil => intro rest; rfl
  | cons w vmtl ih =>
    intro rest
    rw [processVM]
    simp only [List.map_cons]
    rw [ih]

theorem processVM_fst_lookup (v : String) :
    ∀ (vm : VerMap) (rest : PrioMap) {s0 : ArtifactSpec},
      sLookup v vm = some s0 →
      ∃ ps, sLookup v (processVM vm rest).1 =
          some { s0 with paths := s0.paths ++ ps } ∧
        ∀ (q : Nat) (vmq : VerMap) (sq : ArtifactSpec), (q, vmq) ∈ rest →
          sLookup v vmq = some sq → ∀ path ∈ sq.paths, path ∈ ps := by
  intro vm
  induction vm with
  | nil =>
    intro rest s0 h
    simp [sLookup] at h
  | cons w vmtl ih =>
    intro rest s0 h
    rw [processVM]
    simp only []
    by_cases hw : w.1 = v
    · rw [sLookup_cons, if_pos hw] at h
      have hs : w.2 = s0 := Option.some.inj h
      refine ⟨(takeDup w.1 rest).1, ?_, ?_⟩
      · rw [sLookup_cons, if_pos hw, hs]
      · intro q vmq sq hmem hl path hp
        rw [hw]
        exact takeDup_paths v rest hmem hl path hp
    · rw [sLookup_cons, if_neg hw] at h
      obtain ⟨ps, hlook, hcov⟩ := ih (takeDup w.1 rest).2 h
      refine ⟨ps, ?_, ?_⟩
      · rw [sLookup_cons, if_neg hw]
        exact hlook
      · intro q vmq sq hmem hl path hp
        have hmem2 : (q, vmErase w.1 vmq) ∈ (takeDup w.1 rest).2 := by
          rw [takeDup_snd_eq]
          exact List.mem_map.mpr ⟨(q, vmq), hmem, rfl⟩
        have hl2 : sLookup v (vmErase w.1 vmq) = some sq := by
          rw [vmErase_lookup_ne hw]
          exact hl
        exact hcov q (vmErase w.1 vmq) sq hmem2 hl2 path hp

theorem key_mem_of_lookup_isSome {κ α : Type} [DecidableEq κ] {k : κ}
    {l : List (κ × α)} (h : (sLookup k l).isSome) : k ∈ l.map Prod.fst := by
  cases hl : sLookup k l with
  | none =>
    rw [hl] at h
    simp at h
  | some a =>
    exact List.mem_map.mpr ⟨(k, a), sLookup_some_mem hl, rfl⟩

/-- Once a version is absent from every bucket, no amount of further
dedup processing re-introduces it. -/
theorem dedupGo_no_v (v : String) :
    ∀ (n : Nat) (pm : PrioMap),
      (∀ e ∈ pm, sLookup v (e.2 : VerMap) = none) →
      ∀ x ∈ dedupGo n pm, sLookup v (x.2 : VerMap) = none := by
  intro n
  induction n with
  | zero =>
    intro pm h x h2
    cases pm with
    | nil => simp [dedupGo] at h2
    | cons e rest => simp [dedupGo] at h2
  | succ n ih =>
    intro pm h x h2
    cases pm with
    | nil => simp [dedupGo] at h2
    | cons e rest =>
      rw [dedupGo] at h2
      have hrest : ∀ y ∈ (processVM e.2 rest).2, sLookup v (y.2 : VerMap) = none := by
        intro y hy
        rw [processVM_snd_eq] at hy
        obtain ⟨y0, hy0, hyeq⟩ := List.mem_map.mp hy
        rw [← hyeq]
        show sLookup v (vmEraseList (e.2.map Prod.fst) y0.2) = none
        rw [vmEraseList_lookup]
        by_cases hv : v ∈ e.2.map Prod.fst
        · rw [if_pos hv]
        · rw [if_neg hv]
          exact h y0 (List.mem_cons_of_mem e hy0)
      by_cases hemp : ((processVM e.2 rest).1).isEmpty = true
      · rw [if_pos hemp] at h2
        exact ih (processVM e.2 rest).2 hrest x h2
      · rw [if_neg hemp] at h2
        rcases List.mem_cons.mp h2 with hh | ht
        · rw [hh]
          show sLookup v (processVM e.2 rest).1 = none
          rw [sLookup_eq_none_iff, processVM_fst_keys]
          intro hvmem
          have hnone := h e (List.mem_cons_self e rest)
          rw [sLookup_eq_none_iff] at hnone
          exact hnone hvmem
        · exact ih (processVM e.2 rest).2 hrest x ht

/-- Master lemma for `dedupGo` on a strictly priority-sorted map: the
version survives exactly at its lowest priority, with unchanged artifact
types and URL and with the provenance paths of every duplicate folded in. -/
theorem dedupGo_master (v : String) :
    ∀ (n : Nat) (pm : PrioMap), pm.length ≤ n →
      (pm.map Prod.fst).Pairwise (· < ·) →
      ∀ {p0 : Nat} {vm0 : VerMap} {s0 : ArtifactSpec},
        sLookup p0 pm = some vm0 → sLookup v vm0 = some s0 →
        (∀ e ∈ pm, v ∈ (e.2 : VerMap).map Prod.fst → p0 ≤ e.1) →
        ∃ vm1 s1,
          sLookup p0 (dedupGo n pm) = some vm1 ∧
          sLookup v vm1 = some s1 ∧
          s1.artTypes = s0.artTypes ∧ s1.url = s0.url ∧
          (∀ e ∈ pm, ∀ sq : ArtifactSpec, sLookup v (e.2 : VerMap) = some sq →
            ∀ path ∈ sq.paths, path ∈ s1.paths) ∧
          (∀ q, q ≠ p0 → ∀ vmq, sLookup q (dedupGo n pm) = some vmq →
            sLookup v vmq = none) := by
  intro n
  induction n with
  | zero =>
    intro pm hn hpair p0 vm0 s0 hp0 hv hmin
    have hpm : pm = [] := List.length_eq_zero.mp (Nat.le_zero.mp hn)
    subst hpm
    simp [sLookup] at hp0
  | succ n ih =>
    intro pm hn hpair p0 vm0 s0 hp0 hv hmin
    cases pm with
    | nil => simp [sLookup] at hp0
    | cons e rest =>
      rw [List.map_cons, List.pairwise_cons] at hpair
      obtain ⟨hlt, hpairtl⟩ := hpair
      by_cases he : e.1 = p0
      · -- the head priority is the lowest one containing the version
        rw [sLookup_cons, if_pos he] at hp0
        have hvm0 : e.2 = vm0 := Option.some.inj hp0
        have hve : sLookup v e.2 = some s0 := by
          rw [hvm0]
          exact hv
        have hvin : v ∈ e.2.map Prod.fst :=
          key_mem_of_lookup_isSome (by rw [hve]; rfl)
        obtain ⟨ps, hfst, hcov⟩ := processVM_fst_lookup v e.2 rest hve
        have hemp : ((processVM e.2 rest).1).isEmpty = false :=
          isEmpty_false_of_lookup hfst
        have hrest : ∀ y ∈ (processVM e.2 rest).2, sLookup v (y.2 : VerMap) = none := by
          intro y hy
          rw [processVM_snd_eq] at hy
          obtain ⟨y0, hy0, hyeq⟩ := List.mem_map.mp hy
          rw [← hyeq]
          show sLookup v (vmEraseList (e.2.map Prod.fst) y0.2) = none
          rw [vmEraseList_lookup, if_pos hvin]
        rw [dedupGo]
        rw [if_neg (by rw [hemp]; exact Bool.false_ne_true)]
        refine ⟨(processVM e.2 rest).1, { s0 with paths := s0.paths ++ ps },
          ?_, hfst, rfl, rfl, ?_, ?_⟩
        · rw [sLookup_cons, if_pos he]
        · intro x hx sq hlq path hp
          rcases List.mem_cons.mp hx with hh | ht
          · rw [hh] at hlq
            rw [hve] at hlq
            have hsq : s0 = sq := Option.some.inj hlq
            rw [← hsq] at hp
            exact List.mem_append_left _ hp
          · have hmemx : (x.1, x.2) ∈ rest := by
              rw [Prod.mk.eta]
              exact ht
            exact List.mem_append_right _ (hcov x.1 x.2 sq hmemx hlq path hp)
        · intro q hq vmq hlq
          rw [sLookup_cons, if_neg (by rw [he]; exact fun h1 => hq h1.symm)] at hlq
          exact dedupGo_no_v v n (processVM e.2 rest).2 hrest (q, vmq)
            (sLookup_some_mem hlq)
      · -- the head priority is strictly below the lowest one containing v,
        -- so its bucket cannot contain v at all
        rw [sLookup_cons, if_neg he] at hp0
        have hp0mem : p0 ∈ rest.map Prod.fst :=
          key_mem_of_lookup_isSome (by rw [hp0]; rfl)
        have hep0 : e.1 < p0 := hlt p0 hp0mem
        have hws : v ∉ e.2.map Prod.fst := by
          intro hvin
          have := hmin e (List.mem_cons_self e rest) hvin
          omega
        have hlen2 : ((processVM e.2 rest).2).length ≤ n := by
          rw [processVM_snd_length]
          simpa using Nat.le_of_succ_le_succ hn
        have hpair2 : (((processVM e.2 rest).2).map Prod.fst).Pairwise (· < ·) := by
          rw [processVM_snd_keys]
          exact hpairtl
        have hp02 : sLookup p0 (processVM e.2 rest).2 =
            some (vmEraseList (e.2.map Prod.fst) vm0) := by
          rw [processVM_snd_eq]
          rw [sLookup_map_values (fun hole a => vmEraseList (e.2.map Prod.fst) a) rest p0,
            hp0]
          rfl
        have hv2 : sLookup v (vmEraseList (e.2.map Prod.fst) vm0) = some s0 := by
          rw [vmEraseList_lookup, if_neg hws]
          exact hv
        have hmin2 : ∀ x ∈ (processVM e.2 rest).2,
            v ∈ (x.2 : VerMap).map Prod.fst → p0 ≤ x.1 := by
          intro x hx hvx
          rw [processVM_snd_eq] at hx
          obtain ⟨x0, hx0, hxeq⟩ := List.mem_map.mp hx
          have hx1 : x.1 = x0.1 := by rw [← hxeq]
          have hvsome : (sLookup v (vmEraseList (e.2.map Prod.fst) x0.2)).isSome := by
            have hv' : v ∈ (x.2 : VerMap).map Prod.fst := hvx
            rw [← hxeq] at hv'
            exact sLookup_isSome_of_key_mem hv'
          rw [vmEraseList_lookup, if_neg hws] at hvsome
          have hvx0 : v ∈ (x0.2 : VerMap).map Prod.fst :=
            key_mem_of_lookup_isSome hvsome
          rw [hx1]
          exact hmin x0 (List.mem_cons_of_mem e hx0) hvx0
        obtain ⟨vm1, s1, ih1, ih2, ih3, ih4, ih5, ih6⟩ :=
          ih (processVM e.2 rest).2 hlen2 hpair2 hp02 hv2 hmin2
        have hcov2 : ∀ x ∈ e :: rest, ∀ sq : ArtifactSpec,
            sLookup v (x.2 : VerMap) = some sq → ∀ path ∈ sq.paths, path ∈ s1.paths := by
          intro x hx sq hlq path hp
          rcases List.mem_cons.mp hx with hh | ht
          · exfalso
            rw [hh] at hlq
            rw [sLookup_eq_none_iff.mpr hws] at hlq
            exact Option.noConfusion hlq
          · have hxin : ((x.1 : Nat), vmEraseList (e.2.map Prod.fst) x.2) ∈
                (processVM e.2 rest).2 := by
              rw [processVM_snd_eq]
              exact List.mem_map.mpr ⟨x, ht, rfl⟩
            have hlq2 : sLookup v (vmEraseList (e.2.map Prod.fst) x.2) = some sq := by
              rw [vmEraseList_lookup, if_neg hws]
              exact hlq
            exact ih5 (x.1, vmEraseList (e.2.map Prod.fst) x.2) hxin sq hlq2 path hp
        rw [dedupGo]
        by_cases hemp : ((processVM e.2 rest).1).isEmpty = true
        · rw [if_pos hemp]
          exact ⟨vm1, s1, ih1, ih2, ih3, ih4, hcov2, ih6⟩
        · rw [if_neg hemp]
          refine ⟨vm1, s1, ?_, ih2, ih3, ih4, hcov2, ?_⟩
          · rw [sLookup_cons, if_neg he]
            exact ih1
          · intro q hq vmq hlq
            rw [sLookup_cons] at hlq
            by_cases heq : e.1 = q
            · rw [if_pos heq] at hlq
              have hvmq : (processVM e.2 rest).1 = vmq := Option.some.inj hlq
              rw [← hvmq, sLookup_eq_none_iff, processVM_fst_keys]
              exact hws
            · rw [if_neg heq] at hlq
              exact ih6 q hq vmq hlq

/-- C1: for every artifact list and groupId:artifactId entry with unique
dictionary keys, a version held under priority `p0` which is minimal among
the priorities containing that version survives the duplicate filter
exactly at `p0`: the surviving spec keeps its artifact types and URL, its
paths list contains every provenance path of every same-version entry at
any priority (the removed duplicates included), and after the stage the
version is absent from every other priority of the entry. -/
theorem duplicate_filter_lowest_priority_wins (al : ArtifactList)
    {ga : String} {pm : PrioMap} {p0 : Nat} {vm0 : VerMap} {v : String}
    {s0 : ArtifactSpec}
    (hand : (al.map Prod.fst).Nodup)
    (hnd : (pm.map Prod.fst).Nodup)
    (hga : sLookup ga al = some pm)
    (hp0 : sLookup p0 pm = some vm0)
    (hv : sLookup v vm0 = some s0)
    (hmin : ∀ e ∈ pm, v ∈ (e.2 : VerMap).map Prod.fst → p0 ≤ e.1) :
    ∃ pm1 vm1 s1,
      sLookup ga (filterDuplicates al) = some pm1 ∧
      sLookup p0 pm1 = some vm1 ∧
      sLookup v vm1 = some s1 ∧
      s1.artTypes = s0.artTypes ∧ s1.url = s0.url ∧
      (∀ e ∈ pm, ∀ sq : ArtifactSpec, sLookup v (e.2 : VerMap) = some sq →
        ∀ path ∈ sq.paths, path ∈ s1.paths) ∧
      (∀ q, q ≠ p0 → ∀ vmq, sLookup q pm1 = some vmq → sLookup v vmq = none) := by
  have hperm : (sortPrios pm).Perm pm := sortPrios_perm pm
  have hndsp : ((sortPrios pm).map Prod.fst).Nodup :=
    ((hperm.map Prod.fst).nodup_iff).mpr hnd
  have hp0s : sLookup p0 (sortPrios pm) = some vm0 := by
    rw [sLookup_perm hperm hndsp p0]
    exact hp0
  have hpairs : ((sortPrios pm).map Prod.fst).Pairwise (· < ·) :=
    List.pairwise_map.mpr (sortPrios_pairwise_lt pm hnd)
  have hmins : ∀ e ∈ sortPrios pm, v ∈ (e.2 : VerMap).map Prod.fst → p0 ≤ e.1 := by
    intro e hmem hvin
    exact hmin e (hperm.mem_iff.mp hmem) hvin
  have hlen : (sortPrios pm).length ≤ pm.length := le_of_eq hperm.length_eq
  obtain ⟨vm1, s1, m1, m2, m3, m4, m5, m6⟩ :=
    dedupGo_master v pm.length (sortPrios pm) hlen hpairs hp0s hv hmins
  have hne : (filterDuplicatesGA pm).isEmpty = false := isEmpty_false_of_lookup m1
  have hga1 : sLookup ga (filterDuplicates al) = some (filterDuplicatesGA pm) := by
    unfold filterDuplicates
    rw [sLookup_map_filter (fun hole x => filterDuplicatesGA x)
      (fun hole x => !(x : PrioMap).isEmpty) al ga hand, hga, Option.some_bind]
    rw [if_pos (by rw [hne]; rfl)]
  refine ⟨filterDuplicatesGA pm, vm1, s1, hga1, m1, m2, m3, m4, ?_, m6⟩
  intro e hmem sq hlq path hp
  exact m5 e (hperm.mem_iff.mpr hmem) sq hlq path hp

def cexRelA : RelPath := [⟨none, none, some "a", none⟩]

def cexRelB : RelPath := [⟨none, none, some "b", none⟩]

def cexSpecP2 : ArtifactSpec :=
  { url := "http://r2", artTypes := [("jar", ⟨"jar", true, [""]⟩)], paths := [cexRelA] }

def cexSpecP5 : ArtifactSpec :=
  { url := "http://r5", artTypes := [("jar", ⟨"jar", true, [""]⟩)], paths := [cexRelB] }

def cexPm1 : PrioMap := [(5, [("1.0", cexSpecP5)]), (2, [("1.0", cexSpecP2)])]

def cexAl1 : ArtifactList := [("g:a", cexPm1)]

/-- C1 witness: the same version at priorities 2 and 5; the survivor is the
priority-2 entry and its paths cover both original paths lists. -/
theorem duplicate_filter_witness :
    (∀ e ∈ cexPm1, "1.0" ∈ (e.2 : VerMap).map Prod.fst → 2 ≤ e.1) ∧
    (∃ pm1 vm1 s1,
      sLookup "g:a" (filterDuplicates cexAl1) = some pm1 ∧
      sLookup 2 pm1 = some vm1 ∧
      sLookup "1.0" vm1 = some s1 ∧
      s1.artTypes = cexSpecP2.artTypes ∧ s1.url = cexSpecP2.url ∧
      (∀ e ∈ cexPm1, ∀ sq : ArtifactSpec, sLookup "1.0" (e.2 : VerMap) = some sq →
        ∀ path ∈ sq.paths, path ∈ s1.paths) ∧
      (∀ q, q ≠ 2 → ∀ vmq, sLookup q pm1 = some vmq → sLookup "1.0" vmq = none)) :=
  ⟨by decide,
    @duplicate_filter_lowest_priority_wins cexAl1 "g:a" cexPm1 2 [("1.0", cexSpecP2)]
      "1.0" cexSpecP2 (by decide) (by decide) (by decide) (by decide) (by decide)
      (by decide)⟩

end MRB
